import Mathlib

/-!
# hottub: a bounded resource pool

Shallow embedding of `hottub.go` and `stack.go`.

* Slices are lists in slice index order (index 0 is the head of the list).
* A `*receiver` is an index into `pool.heap`, the list of every receiver
  allocated by `newReceiver` so far.
* A `Resource` value stands for the pointer stored in the interface value;
  Go compares resources by identity, here by equality of the whole record.
  The record also carries what the methods `Alive()` and `Close()` of that
  resource return.
* The generator is a closure with hidden state: `gen k` is what its call
  number `k` returns and `pool.calls` counts the calls made so far.
* Events are serialised: one call of `Take`, `Return` or `Close`, or one tick
  of a ticker, at a time (`step`); a run is a list of such events (`run`).
* `time.Duration` is an `Int` number of nanoseconds, `uint` is a `Nat`.
* A call that panics, or that blocks for ever, is reported in its outcome.
  `NewPool` panics on a nil `*PoolParams` and when `make(resources, max)`
  rejects the length; the largest accepted length is the parameter `maxLen`
  (`maxSliceLen` on linux/amd64). Running out of memory is not modelled.
* The goroutine spawned by `Take` is run up to the point where it finishes
  or blocks for ever; the hand-off of `Return` to a parked `Take` includes
  what that `Take` does on receiving the resource.
-/

namespace Hottub

/-! ## Errors, durations, constants -/

/-- The error values of the package, and the errors a resource may produce. -/
inductive Error where
  | ErrCannotClosePool
  | ErrTimeoutTakingResource
  | ErrTimeoutClosingPool
  | ErrGeneratorRequired
  | ErrUnmanagedResource
  | ErrAlreadyClosed
  | external (code : Nat)
  deriving DecidableEq, Repr

/-- One millisecond of `time.Duration`, in nanoseconds. -/
def Millisecond : Int := 1000000

def DefaultMaxResources : Nat := 10

def DefaultTakeTimeout : Int := Millisecond * 50

def DefaultAliveCheck : Int := Millisecond * 1000

def TimeoutBlocking : Int := -1

/-! ## Resources and generators -/

/-- A pooled resource: `alive` is what `Alive()` returns, `close` what `Close()` returns. -/
structure Resource where
  id : Nat
  alive : Bool × Option Error
  close : Option Error
  deriving DecidableEq, Repr

/-- The sequence of resources a generator closure returns, call after call. -/
abbrev Generator := Nat → Resource

structure PoolParams where
  MaxResources : Nat
  Timeout : Int
  Check : Int
  deriving DecidableEq, Repr

/-! ## stack.go: receivers -/

/-- What the `Take` call that owns a receiver is doing. -/
inductive Call where
  | waiting
  | done (r : Option Resource) (err : Option Error)
  deriving DecidableEq, Repr

/-- The goroutine of `receiver.start`: no ticker, a live ticker, or blocked
for ever on `r.response <- ErrTimeoutTakingResource`. -/
inductive Timer where
  | off
  | armed
  | stuck
  deriving DecidableEq, Repr

/-- The `receiver` struct with its two flags. The channels are unbuffered, so
they hold nothing: `call` records what the owning `Take` has received, `timer`
the state of the goroutine started by `start`, and `ticks` how many times that
goroutine has run `r.timedOut = true`. -/
structure receiver where
  timedOut : Bool
  replied : Bool
  call : Call
  timer : Timer
  ticks : Nat
  deriving DecidableEq, Repr

def newReceiver : receiver :=
  { timedOut := false, replied := false, call := Call.waiting, timer := Timer.off, ticks := 0 }

/-- The goroutine of `receiver.start(d)` arms a ticker only when `d > 0`. -/
def receiver.start (r : receiver) (d : Int) : receiver :=
  if d > 0 then { r with timer := Timer.armed } else r

/-- One tick of an armed ticker: `r.timedOut = true`, then the send on
`r.response`, which the owning `Take` receives if it is still waiting and
which otherwise blocks the goroutine for ever. -/
def receiver.tick (r : receiver) : receiver :=
  match r.timer with
  | Timer.armed =>
    match r.call with
    | Call.waiting =>
      { r with timedOut := true, ticks := r.ticks + 1,
               call := Call.done none (some Error.ErrTimeoutTakingResource) }
    | Call.done _ _ =>
      { r with timedOut := true, ticks := r.ticks + 1, timer := Timer.stuck }
  | _ => r

/-! ## stack.go: the stack of receivers -/

/-- The type `stack []*receiver`: receiver pointers in slice order. -/
abbrev stack := List Nat

def newStack : stack := []

def stack.size (s : stack) : Int := (List.length s : Int)

def stack.isEmpty (s : stack) : Bool := decide (stack.size s = 0)

/-- The method `stack.pop`: index `len-1` is returned and cut off; indexing
panics (`none`) on the empty slice. -/
def stack.pop (s : stack) : Option (Nat × stack) :=
  let idx : Int := (List.length s : Int) - 1
  if 0 ≤ idx ∧ idx < (List.length s : Int) then
    match s.get? idx.toNat with
    | some popped => some (popped, List.take idx.toNat s)
    | none => none
  else none

/-- The method `stack.push`: grow by one, shift everything right, write index 0. -/
def stack.push (s : stack) (p : Nat) : stack := p :: s

/-! ## stack.go: the resource slices -/

abbrev resources := List Resource

/-- The method `resources.remove(idx)`: panics (`none`) when `idx` is out of range. -/
def resources.remove (r : resources) (idx : Int) : Option (Resource × resources) :=
  if 0 ≤ idx ∧ idx < (List.length r : Int) then
    match r.get? idx.toNat with
    | some removed => some (removed, List.eraseIdx r idx.toNat)
    | none => none
  else none

def resources.pop (r : resources) : Option (Resource × resources) :=
  resources.remove r ((List.length r : Int) - 1)

def resources.push (r : resources) (res : Resource) : resources := res :: r

/-- The loop of `resources.indexOf` from index `i` on. -/
def resources.indexOfFrom (res : Resource) : resources → Int → Int × Bool
  | [], i => (i, false)
  | x :: xs, i => if res = x then (i, true) else resources.indexOfFrom res xs (i + 1)

/-- The method `resources.indexOf`: the first index holding `res`, or `(len, false)`. -/
def resources.indexOf (r : resources) (res : Resource) : Int × Bool :=
  resources.indexOfFrom res r 0

/-! ## hottub.go: the pool -/

/-- The struct `pool`. Besides its fields: `calls` is the number of generator
calls made so far, `heap` the receivers allocated so far, and `closeCalls`
the resources whose `Close()` has been called, in call order. -/
structure pool where
  max : Nat
  gen : Generator
  calls : Nat
  regenerate : Bool
  timeout : Int
  check : Int
  closed : Bool
  resources : List Resource
  out : List Resource
  requests : List Nat
  heap : List receiver
  closeCalls : List Resource

/-- Apply `f` to the receiver behind pointer `i`. -/
def heapUpdate (h : List receiver) (i : Nat) (f : receiver → receiver) : List receiver :=
  match h.get? i with
  | some r => h.set i (f r)
  | none => h

/-- How a call of `NewPool` proceeds: it returns `(p, nil)`, it returns
`(nil, err)`, or the program panics. -/
inductive NewPoolOutcome where
  | ok (p : pool)
  | error (e : Error)
  | panic

/-- The function `NewPool`. `g = none` is the nil generator and `params = none`
the nil `*PoolParams`, whose dereference `params.MaxResources` panics.
`maxLen` is the largest length that `make(resources, max)` accepts on the
platform; for a larger `max` that call panics (len out of range), before the
generator is called at all. The loop
`for i := 0; i < p.max; i++ { p.resources[i] = p.gen() }` stores the result of
call number `i` at index `i`. -/
def NewPool (maxLen : Nat) (g : Option Generator) (params : Option PoolParams) :
    NewPoolOutcome :=
  match g with
  | none => NewPoolOutcome.error Error.ErrGeneratorRequired
  | some g =>
    match params with
    | none => NewPoolOutcome.panic
    | some params =>
      let max := if params.MaxResources ≤ 0 then DefaultMaxResources else params.MaxResources
      let timeout := if params.Timeout = 0 then DefaultTakeTimeout else params.Timeout
      let check := if params.Check ≤ 0 then DefaultAliveCheck else params.Check
      if max ≤ maxLen then
        NewPoolOutcome.ok
          { max := max, gen := g, calls := max, regenerate := false,
            timeout := timeout, check := check, closed := false,
            resources := (List.range max).map g, out := [],
            requests := newStack, heap := [], closeCalls := [] }
      else NewPoolOutcome.panic

/-- How a call of `Take` proceeds: it returns `(r, err)`, it is suspended in
its `select` on the receiver `rec`, or the program panics. -/
inductive TakeOutcome where
  | returned (r : Option Resource) (err : Option Error)
  | parked (rcv : Nat)
  | panic
  deriving DecidableEq, Repr

/-- The method `pool.Take`. -/
def Take (p : pool) : pool × TakeOutcome :=
  let rcv := p.heap.length
  let p := { p with heap := p.heap ++ [newReceiver] }
  if p.resources.length = 0 then
    let p := { p with requests := stack.push p.requests rcv }
    let p := { p with heap := heapUpdate p.heap rcv (fun x => receiver.start x p.timeout) }
    (p, TakeOutcome.parked rcv)
  else
    match resources.pop p.resources with
    | none => (p, TakeOutcome.panic)
    | some (r, rest) =>
      let p := { p with resources := rest }
      match r.alive with
      | (ok, some err) =>
        -- rcv.response <- err is received by the select: Take returns (nil, err);
        -- the goroutine goes on, and blocks for ever on rcv.resource <- r
        let heap := heapUpdate p.heap rcv (fun x => { x with call := Call.done none (some err) })
        let p := { p with heap := heap }
        let p := if !ok then { p with calls := p.calls + 1 } else p
        (p, TakeOutcome.returned none (some err))
      | (ok, none) =>
        let r1 := if !ok then p.gen p.calls else r
        let p := if !ok then { p with calls := p.calls + 1 } else p
        -- rcv.resource <- r is received: p.out.push(r); return r, nil;
        -- the goroutine then sets rcv.replied = true
        let p := { p with out := resources.push p.out r1 }
        let heap := heapUpdate p.heap rcv
          (fun x => { x with call := Call.done (some r1) none, replied := true })
        let p := { p with heap := heap }
        (p, TakeOutcome.returned (some r1) none)

/-- How a call of `Return` or `Close` proceeds: it returns `err`, it blocks
for ever, the program panics, or the loop model ran out of fuel. -/
inductive Outcome where
  | returned (err : Option Error)
  | blocked
  | panic
  | unfinished
  deriving DecidableEq, Repr

/-- The loop `for !p.requests.isEmpty() { ... }` of `Return`, at most `fuel`
iterations. The send `rec.resource <- r` is received by the `Take` suspended on
`rec`, which runs `p.out.push(r); return r, nil`; with no `Take` suspended on
`rec` the send blocks for ever. -/
def Return.loop (r : Resource) : Nat → pool → pool × Outcome
  | 0, p => (p, Outcome.unfinished)
  | fuel + 1, p =>
    if !stack.isEmpty p.requests then
      match stack.pop p.requests with
      | none => (p, Outcome.panic)
      | some (rcv, rest) =>
        let p := { p with requests := rest }
        match p.heap.get? rcv with
        | none => (p, Outcome.panic)
        | some rc =>
          if rc.replied || rc.timedOut then Return.loop r fuel p
          else
            match rc.call with
            | Call.waiting =>
              let p := { p with out := resources.push p.out r }
              let heap := heapUpdate p.heap rcv (fun x => { x with call := Call.done (some r) none })
              let p := { p with heap := heap }
              (p, Outcome.returned none)
            | Call.done _ _ => (p, Outcome.blocked)
    else (p, Outcome.returned none)

def pool.manages (p : pool) (r : Resource) : Int × Bool :=
  resources.indexOf p.out r

/-- The method `pool.Return`. -/
def Return (p : pool) (r : Resource) : pool × Outcome :=
  match pool.manages p r with
  | (_, false) => (p, Outcome.returned (some Error.ErrUnmanagedResource))
  | (idx, true) =>
    match resources.remove p.out idx with
    | none => (p, Outcome.panic)
    | some (_, rest) =>
      let p := { p with out := rest }
      let p := { p with resources := resources.push p.resources r }
      Return.loop r (p.requests.length + 1) p

def Manages (p : pool) (r : Resource) : Bool :=
  (pool.manages p r).2

/-- The method `pool.Close`. The wait group is raised by `len(p.resources)` and
by `len(p.out)` and lowered once per resource of `p.resources`; `wg.Wait()`
returns only when it is back at zero. -/
def Close (p : pool) : pool × Outcome :=
  if p.closed then (p, Outcome.returned (some Error.ErrAlreadyClosed))
  else
    let p := { p with closed := true }
    let wg := p.resources.length + p.out.length
    let p := { p with closeCalls := p.closeCalls ++ p.resources }
    let wg := wg - p.resources.length
    if wg = 0 then (p, Outcome.returned none) else (p, Outcome.blocked)

def Max (p : pool) : Nat := p.max

def Available (p : pool) : Int := (List.length p.resources : Int)

/-! ## Runs of the pool -/

/-- One event at the pool: a call of `Take`, `Return(r)` or `Close`, or a tick
of the ticker started for the receiver `rec`. -/
inductive Op where
  | take
  | ret (r : Resource)
  | expire (rcv : Nat)
  | close
  deriving DecidableEq, Repr

def step (p : pool) : Op → pool
  | Op.take => (Take p).1
  | Op.ret r => (Return p r).1
  | Op.expire rcv => { p with heap := heapUpdate p.heap rcv receiver.tick }
  | Op.close => (Close p).1

def run (p : pool) (ops : List Op) : pool :=
  ops.foldl step p

/-- The states a pool can be in: built by `NewPool`, then any finite run. -/
def Reachable (p : pool) : Prop :=
  ∃ maxLen g params p0 ops,
    NewPool maxLen (some g) (some params) = NewPoolOutcome.ok p0 ∧ run p0 ops = p

/-! ## hottub_test.go: the generators of the tests -/

def errTestAlive : Error := Error.external 0

/-- The generator `testGenerator()`: call number `k` makes the resource with id
`k + 1`, whose probe is `testAlive1` and whose closer is `testClose1`. -/
def testGenerator : Generator :=
  fun k => { id := k + 1, alive := (true, none), close := none }

/-- The generator `testGenerator2()`: the probe of the resource with id `i` is
`testAlive2(i)`, which returns `(i%2 == 0, errTestAlive)`. -/
def testGenerator2 : Generator :=
  fun k => { id := k + 1, alive := (decide ((k + 1) % 2 = 0), some errTestAlive), close := none }

/-- A generator of resources whose probe returns `(false, nil)`. -/
def deadGenerator : Generator :=
  fun k => { id := k + 1, alive := (false, none), close := none }

/-- A generator whose first resource probes `(false, nil)` and whose later
resources probe `(true, errTestAlive)`. -/
def mixedGenerator : Generator :=
  fun k =>
    if k = 0 then { id := 1, alive := (false, none), close := none }
    else { id := k + 1, alive := (true, some errTestAlive), close := none }

/-! ## Vocabulary of the statements -/

/-- The receiver behind `i` is already resolved: `rec.replied || rec.timedOut`. -/
def resolved (h : List receiver) (i : Nat) : Prop :=
  ∃ rc : receiver, h[i]? = some rc ∧ (rc.replied || rc.timedOut) = true

/-- No `Take` is parked: every receiver still on the stack is resolved. -/
def noWaiters (p : pool) : Prop :=
  ∀ i ∈ p.requests, resolved p.heap i

/-- The call of `Take` that owns the receiver behind `i` has returned `(r, nil)`. -/
def returnedTo (h : List receiver) (i : Nat) (r : Resource) : Prop :=
  ∃ rc : receiver, h[i]? = some rc ∧ rc.call = Call.done (some r) none

/-- Some call of `Take` has returned `(r, nil)`. -/
def handedOut (p : pool) (r : Resource) : Prop :=
  ∃ i : Nat, returnedTo p.heap i r

/-- Every receiver on the waiter stack was allocated, is on the stack once, and is
still waited on by its `Take` unless its ticker has marked it timed out. -/
def waitersSound (p : pool) : Prop :=
  p.requests.Nodup ∧
  ∀ i ∈ p.requests, ∃ rc : receiver,
    p.heap[i]? = some rc ∧ (rc.call = Call.waiting ∨ rc.timedOut = true)

/-- No event of the run is a call of `Return`. -/
def noReturn (ops : List Op) : Prop :=
  ∀ r : Resource, Op.ret r ∉ ops

/-! ## Example states -/

/-- The value of `maxLen` on linux/amd64: `maxAlloc` is `1 << 48` bytes and an
interface value takes 16 bytes, so `make(resources, n)` panics for every `n`
above `1 << 44`. -/
def maxSliceLen : Nat := 2 ^ 44

/-- The pool that `NewPool(testGenerator(), &PoolParams{MaxResources: 1})` returns. -/
def singlePool : pool :=
  { max := 1, gen := testGenerator, calls := 1, regenerate := false,
    timeout := DefaultTakeTimeout, check := DefaultAliveCheck, closed := false,
    resources := [testGenerator 0], out := [],
    requests := [], heap := [], closeCalls := [] }

/-- The pool that `NewPool(testGenerator(), &PoolParams{MaxResources: 2})` returns. -/
def examplePool : pool :=
  { max := 2, gen := testGenerator, calls := 2, regenerate := false,
    timeout := DefaultTakeTimeout, check := DefaultAliveCheck, closed := false,
    resources := [testGenerator 0, testGenerator 1], out := [],
    requests := [], heap := [], closeCalls := [] }

/-- The pool that `NewPool` returns for capacity 1 and a generator of dead resources. -/
def deadPool : pool :=
  { max := 1, gen := deadGenerator, calls := 1, regenerate := false,
    timeout := DefaultTakeTimeout, check := DefaultAliveCheck, closed := false,
    resources := [deadGenerator 0], out := [],
    requests := [], heap := [], closeCalls := [] }

/-- The pool `singlePool` after its only resource was taken. -/
def drainedPool : pool := step singlePool Op.take

/-- The pool `drainedPool` after a further `Take`, which is parked on receiver 1. -/
def waitingPool : pool := step drainedPool Op.take

/-- The pool that `NewPool(testGenerator2(), &PoolParams{MaxResources: 1})` returns. -/
def errorPool : pool :=
  { max := 1, gen := testGenerator2, calls := 1, regenerate := false,
    timeout := DefaultTakeTimeout, check := DefaultAliveCheck, closed := false,
    resources := [testGenerator2 0], out := [],
    requests := [], heap := [], closeCalls := [] }

/-! ## Lemmas on the slices -/

theorem resources.pop_concat (l : List Resource) (x : Resource) :
    resources.pop (l ++ [x]) = some (x, l) := by
  unfold resources.pop resources.remove
  have h1 : ((List.length (l ++ [x]) : Int) - 1) = (l.length : Int) := by
    simp
  rw [h1]
  have h2 : (l ++ [x]).eraseIdx l.length = l := by
    rw [List.eraseIdx_append_of_length_le (Nat.le_refl _)]
    simp
  simp [h2]

theorem resources.pop_nil : resources.pop [] = none := by
  decide

theorem stack.pop_snoc (l : List Nat) (x : Nat) :
    stack.pop (l ++ [x]) = some (x, l) := by
  unfold stack.pop
  have h1 : ((List.length (l ++ [x]) : Int) - 1) = (l.length : Int) := by
    simp
  simp only [h1]
  simp

theorem resources.indexOfFrom_eq (res : Resource) (l : List Resource) (i : Int) :
    resources.indexOfFrom res l i = (i + (List.indexOf res l : Nat), decide (res ∈ l)) := by
  induction l generalizing i with
  | nil => simp [resources.indexOfFrom]
  | cons x xs ih =>
    unfold resources.indexOfFrom
    by_cases h : res = x
    · subst h
      simp
    · have h2 : ¬ (x = res) := fun e => h e.symm
      rw [if_neg h, ih, List.indexOf_cons_ne _ h2]
      simp [h]
      omega

theorem resources.indexOf_eq (l : List Resource) (res : Resource) :
    resources.indexOf l res = (((List.indexOf res l : Nat) : Int), decide (res ∈ l)) := by
  unfold resources.indexOf
  rw [resources.indexOfFrom_eq]
  simp

theorem resources.remove_indexOf (l : List Resource) (res : Resource) (h : res ∈ l) :
    resources.remove l (resources.indexOf l res).1 = some (res, l.erase res) := by
  rw [resources.indexOf_eq]
  unfold resources.remove
  have hlt : List.indexOf res l < l.length := List.indexOf_lt_length.mpr h
  have hget : l[List.indexOf res l]? = some res := by
    rw [List.getElem?_eq_getElem hlt]
    simp
  simp [hlt, hget]

theorem heapUpdate_getElem? (h : List receiver) (i j : Nat) (f : receiver → receiver) :
    (heapUpdate h i f)[j]? = if j = i then (h[j]?).map f else h[j]? := by
  unfold heapUpdate
  cases hi : h.get? i with
  | none =>
    simp only []
    by_cases hji : j = i
    · subst hji
      simp at hi
      simp [List.getElem?_eq_none hi]
    · simp [hji]
  | some rc =>
    simp only []
    by_cases hji : j = i
    · subst hji
      simp at hi
      simp [hi, List.getElem?_set]
      by_contra hlt
      have := List.getElem?_eq_none (Nat.le_of_not_lt hlt)
      simp [this] at hi
    · have : ¬ i = j := fun e => hji e.symm
      simp [hji, List.getElem?_set, this]

theorem heapUpdate_length (h : List receiver) (i : Nat) (f : receiver → receiver) :
    (heapUpdate h i f).length = h.length := by
  unfold heapUpdate
  cases h.get? i <;> simp

/-! ## Unfolding `Take` and `Return` -/

theorem Return.loop_nil (r : Resource) (n : Nat) (p : pool) (h : p.requests = []) :
    Return.loop r (n + 1) p = (p, Outcome.returned none) := by
  rw [Return.loop]
  simp [h, stack.isEmpty, stack.size]

theorem Return.loop_concat (r : Resource) (n : Nat) (p : pool) (pre : List Nat) (x : Nat)
    (h : p.requests = pre ++ [x]) :
    Return.loop r (n + 1) p =
      match p.heap[x]? with
      | none => ({ p with requests := pre }, Outcome.panic)
      | some rc =>
        if (rc.replied || rc.timedOut) = true then Return.loop r n { p with requests := pre }
        else
          match rc.call with
          | Call.waiting =>
            ({ p with requests := pre, out := r :: p.out,
                      heap := heapUpdate p.heap x (fun y => { y with call := Call.done (some r) none }) },
              Outcome.returned none)
          | Call.done _ _ => ({ p with requests := pre }, Outcome.blocked) := by
  rw [Return.loop]
  simp only [h, stack.isEmpty, stack.size, stack.pop_snoc]
  simp
  rfl

theorem Return_unmanaged (p : pool) (r : Resource) (h : r ∉ p.out) :
    Return p r = (p, Outcome.returned (some Error.ErrUnmanagedResource)) := by
  unfold Return pool.manages
  rw [resources.indexOf_eq]
  simp [h]

theorem Return_managed (p : pool) (r : Resource) (h : r ∈ p.out) :
    Return p r =
      Return.loop r (p.requests.length + 1)
        { p with out := p.out.erase r, resources := r :: p.resources } := by
  have h1 := resources.remove_indexOf p.out r h
  have h2 : (resources.indexOf p.out r).2 = true := by
    rw [resources.indexOf_eq]
    simp [h]
  unfold Return pool.manages
  generalize resources.indexOf p.out r = ir at h1 h2
  obtain ⟨idx, b⟩ := ir
  simp only at h1 h2
  subst h2
  simp only [h1]
  rfl

theorem Take_nil (p : pool) (h : p.resources = []) :
    Take p =
      ({ p with
          heap := heapUpdate (p.heap ++ [newReceiver]) p.heap.length
            (fun x => receiver.start x p.timeout),
          requests := p.heap.length :: p.requests },
        TakeOutcome.parked p.heap.length) := by
  unfold Take
  simp [h, stack.push]

theorem Take_live (p : pool) (pre : List Resource) (x : Resource)
    (h : p.resources = pre ++ [x]) (hx : x.alive = (true, none)) :
    Take p =
      ({ p with
          resources := pre, out := x :: p.out,
          heap := heapUpdate (p.heap ++ [newReceiver]) p.heap.length
            (fun y => { y with call := Call.done (some x) none, replied := true }) },
        TakeOutcome.returned (some x) none) := by
  unfold Take
  simp [h, resources.pop_concat, hx, resources.push]

theorem Take_dead (p : pool) (pre : List Resource) (x : Resource)
    (h : p.resources = pre ++ [x]) (hx : x.alive = (false, none)) :
    Take p =
      ({ p with
          resources := pre, calls := p.calls + 1, out := p.gen p.calls :: p.out,
          heap := heapUpdate (p.heap ++ [newReceiver]) p.heap.length
            (fun y => { y with call := Call.done (some (p.gen p.calls)) none, replied := true }) },
        TakeOutcome.returned (some (p.gen p.calls)) none) := by
  unfold Take
  simp [h, resources.pop_concat, hx, resources.push]

theorem Take_error (p : pool) (pre : List Resource) (x : Resource) (ok : Bool) (e : Error)
    (h : p.resources = pre ++ [x]) (hx : x.alive = (ok, some e)) :
    Take p =
      ({ p with
          resources := pre, calls := if ok then p.calls else p.calls + 1,
          heap := heapUpdate (p.heap ++ [newReceiver]) p.heap.length
            (fun y => { y with call := Call.done none (some e) }) },
        TakeOutcome.returned none (some e)) := by
  unfold Take
  cases ok <;> simp [h, resources.pop_concat, hx]

theorem nil_or_snoc {α : Type} (l : List α) : l = [] ∨ ∃ pre x, l = pre ++ [x] := by
  rcases List.eq_nil_or_concat l with h | ⟨pre, x, h⟩
  · exact Or.inl h
  · exact Or.inr ⟨pre, x, by rw [h, List.concat_eq_append]⟩

theorem Return.loop_no_error (r : Resource) (n : Nat) (p : pool) (e : Error) :
    (Return.loop r n p).2 ≠ Outcome.returned (some e) := by
  induction n generalizing p with
  | zero => simp [Return.loop]
  | succ n ih =>
    rcases nil_or_snoc p.requests with h | ⟨pre, x, h⟩
    · rw [Return.loop_nil r n p h]
      simp
    · rw [Return.loop_concat r n p pre x h]
      split
      · simp
      · split
        · exact ih _
        · split <;> simp

/-! ## The loop of `Return` when nobody waits -/

theorem Return.loop_resolved (r : Resource) (n : Nat) (p : pool)
    (hw : noWaiters p) (hn : p.requests.length < n) :
    Return.loop r n p = ({ p with requests := [] }, Outcome.returned none) := by
  induction n generalizing p with
  | zero => omega
  | succ n ih =>
    rcases nil_or_snoc p.requests with h | ⟨pre, x, h⟩
    · rw [Return.loop_nil r n p h, ← h]
    · rw [Return.loop_concat r n p pre x h]
      obtain ⟨rc, hrc, hflag⟩ := hw x (by simp [h])
      have hw2 : noWaiters { p with requests := pre } := by
        intro i hi
        exact hw i (by simp [h]; exact Or.inl hi)
      have hn2 : pre.length < n := by
        simp [h] at hn
        omega
      simp only [hrc, hflag, if_true]
      rw [ih _ hw2 hn2]

theorem resources.pop_eq_some (l : List Resource) (d : Resource) (rest : List Resource)
    (h : resources.pop l = some (d, rest)) : l = rest ++ [d] := by
  rcases nil_or_snoc l with h0 | ⟨pre, x, h0⟩
  · subst h0
    rw [resources.pop_nil] at h
    cases h
  · subst h0
    rw [resources.pop_concat] at h
    cases h
    rfl

/-! ## Which calls of `Take` have returned which resource -/

theorem Manages_eq (p : pool) (r : Resource) : Manages p r = decide (r ∈ p.out) := by
  unfold Manages pool.manages
  rw [resources.indexOf_eq]

theorem returnedTo_heapUpdate (h : List receiver) (i j : Nat) (f : receiver → receiver)
    (r : Resource) (hr : returnedTo (heapUpdate h j f) i r) :
    (i ≠ j ∧ returnedTo h i r) ∨
      (i = j ∧ ∃ rc, h[j]? = some rc ∧ (f rc).call = Call.done (some r) none) := by
  obtain ⟨rc, hrc, hcall⟩ := hr
  rw [heapUpdate_getElem?] at hrc
  by_cases hij : i = j
  · right
    subst hij
    simp only [if_true] at hrc
    cases hget : h[i]? with
    | none => simp [hget] at hrc
    | some rc0 =>
      simp [hget] at hrc
      subst hrc
      exact ⟨rfl, rc0, rfl, hcall⟩
  · left
    simp only [hij, if_false] at hrc
    exact ⟨hij, rc, hrc, hcall⟩

theorem returnedTo_heapUpdate_mono (h : List receiver) (i j : Nat) (f : receiver → receiver)
    (r : Resource)
    (hf : ∀ rc : receiver, rc.call = Call.done (some r) none →
      (f rc).call = Call.done (some r) none)
    (hr : returnedTo h i r) : returnedTo (heapUpdate h j f) i r := by
  obtain ⟨rc, hrc, hcall⟩ := hr
  unfold returnedTo
  rw [heapUpdate_getElem?]
  by_cases hij : i = j
  · subst hij
    exact ⟨f rc, by simp [hrc], hf rc hcall⟩
  · exact ⟨rc, by simp [hij, hrc], hcall⟩

theorem returnedTo_append (h : List receiver) (x : receiver) (i : Nat) (r : Resource)
    (hr : returnedTo (h ++ [x]) i r) :
    returnedTo h i r ∨ (i = h.length ∧ x.call = Call.done (some r) none) := by
  obtain ⟨rc, hrc, hcall⟩ := hr
  by_cases hi : i < h.length
  · left
    rw [List.getElem?_append_left hi] at hrc
    exact ⟨rc, hrc, hcall⟩
  · right
    have hle : h.length ≤ i := Nat.le_of_not_lt hi
    rw [List.getElem?_append_right hle] at hrc
    by_cases h0 : i - h.length = 0
    · rw [h0] at hrc
      simp at hrc
      subst hrc
      exact ⟨by omega, hcall⟩
    · obtain ⟨k, hk⟩ := Nat.exists_eq_succ_of_ne_zero h0
      rw [hk] at hrc
      simp at hrc

theorem returnedTo_append_mono (h : List receiver) (x : receiver) (i : Nat) (r : Resource)
    (hr : returnedTo h i r) : returnedTo (h ++ [x]) i r := by
  obtain ⟨rc, hrc, hcall⟩ := hr
  have hi : i < h.length := by
    by_contra hlt
    rw [List.getElem?_eq_none (Nat.le_of_not_lt hlt)] at hrc
    cases hrc
  exact ⟨rc, by rw [List.getElem?_append_left hi]; exact hrc, hcall⟩

theorem receiver.tick_call (rc : receiver) (r : Resource) :
    (receiver.tick rc).call = Call.done (some r) none ↔ rc.call = Call.done (some r) none := by
  unfold receiver.tick
  cases ht : rc.timer <;> cases hc : rc.call <;> simp

theorem receiver.start_call (rc : receiver) (d : Int) :
    (receiver.start rc d).call = rc.call := by
  unfold receiver.start
  split <;> rfl

theorem heapUpdate_append_last (h : List receiver) (x : receiver) (f : receiver → receiver) :
    heapUpdate (h ++ [x]) h.length f = h ++ [f x] := by
  unfold heapUpdate
  simp

/-- The heap and the checked-out slice after `Take`: one receiver is allocated, and a
resource is pushed on `out` exactly when the call returns it. -/
theorem Take_shape (p : pool) :
    ∃ rc : receiver, (Take p).1.heap = p.heap ++ [rc] ∧
      (((Take p).1.out = p.out ∧ ∀ r, rc.call ≠ Call.done (some r) none) ∨
        ∃ r, (Take p).1.out = r :: p.out ∧ rc.call = Call.done (some r) none ∧
          (Take p).2 = TakeOutcome.returned (some r) none) := by
  rcases nil_or_snoc p.resources with h | ⟨pre, x, h⟩
  · rw [Take_nil p h, heapUpdate_append_last]
    refine ⟨_, rfl, Or.inl ⟨rfl, ?_⟩⟩
    intro r
    rw [receiver.start_call]
    simp [newReceiver]
  · rcases hx : x.alive with ⟨ok, _ | e⟩
    · cases ok
      · rw [Take_dead p pre x h hx, heapUpdate_append_last]
        exact ⟨_, rfl, Or.inr ⟨_, rfl, rfl, rfl⟩⟩
      · rw [Take_live p pre x h hx, heapUpdate_append_last]
        exact ⟨_, rfl, Or.inr ⟨_, rfl, rfl, rfl⟩⟩
    · rw [Take_error p pre x ok e h hx, heapUpdate_append_last]
      refine ⟨_, rfl, Or.inl ⟨rfl, ?_⟩⟩
      intro r
      simp

/-- The heap and the checked-out slice after the loop of `Return`: nothing changed, or
one waiting receiver was handed `r` and `r` was pushed on `out`. -/
theorem Return.loop_shape (r : Resource) (n : Nat) (p : pool) :
    ((Return.loop r n p).1.heap = p.heap ∧ (Return.loop r n p).1.out = p.out) ∨
      ∃ (x : Nat) (rc : receiver), p.heap[x]? = some rc ∧ rc.call = Call.waiting ∧
        (Return.loop r n p).1.heap =
          heapUpdate p.heap x (fun y => { y with call := Call.done (some r) none }) ∧
        (Return.loop r n p).1.out = r :: p.out := by
  induction n generalizing p with
  | zero => simp [Return.loop]
  | succ n ih =>
    rcases nil_or_snoc p.requests with h | ⟨pre, x, h⟩
    · rw [Return.loop_nil r n p h]
      simp
    · rw [Return.loop_concat r n p pre x h]
      cases hget : p.heap[x]? with
      | none => simp
      | some rc =>
        by_cases hflag : (rc.replied || rc.timedOut) = true
        · simp only [hflag, if_true]
          exact ih { p with requests := pre }
        · simp only [hflag, if_false]
          cases hcall : rc.call with
          | waiting =>
            right
            exact ⟨x, rc, hget, hcall, rfl, rfl⟩
          | done a b => simp

theorem Close_state (p : pool) :
    (Close p).1 =
      if p.closed then p
      else { p with closed := true, closeCalls := p.closeCalls ++ p.resources } := by
  unfold Close
  split
  · rfl
  · simp only
    split <;> rfl

theorem Return_shape (p : pool) (r : Resource) :
    ((Return p r).1.heap = p.heap ∧ ∀ x ∈ (Return p r).1.out, x ∈ p.out) ∨
      ∃ (x : Nat) (rc : receiver), p.heap[x]? = some rc ∧ rc.call = Call.waiting ∧
        (Return p r).1.heap =
          heapUpdate p.heap x (fun y => { y with call := Call.done (some r) none }) ∧
        (Return p r).1.out = r :: p.out.erase r := by
  by_cases hr : r ∈ p.out
  · rw [Return_managed p r hr]
    rcases Return.loop_shape r (p.requests.length + 1)
        { p with out := p.out.erase r, resources := r :: p.resources } with ⟨h1, h2⟩ | h
    · left
      refine ⟨h1, ?_⟩
      intro x hx
      rw [h2] at hx
      exact List.mem_of_mem_erase hx
    · right
      exact h
  · rw [Return_unmanaged p r hr]
    left
    exact ⟨rfl, fun x hx => hx⟩

theorem step_returnedTo_mono (p : pool) (op : Op) (i : Nat) (r : Resource)
    (h : returnedTo p.heap i r) : returnedTo (step p op).heap i r := by
  cases op with
  | take =>
    obtain ⟨rc, hheap, _⟩ := Take_shape p
    simp only [step]
    rw [hheap]
    exact returnedTo_append_mono _ _ _ _ h
  | ret x =>
    simp only [step]
    rcases Return_shape p x with ⟨h1, _⟩ | ⟨j, rc, hj, hwait, h1, _⟩
    · rw [h1]
      exact h
    · rw [h1]
      obtain ⟨rc0, hrc0, hc0⟩ := h
      have hij : i ≠ j := by
        intro e
        subst e
        rw [hj] at hrc0
        cases hrc0
        rw [hwait] at hc0
        cases hc0
      exact ⟨rc0, by rw [heapUpdate_getElem?]; simp [hij, hrc0], hc0⟩
  | expire j =>
    simp only [step]
    exact returnedTo_heapUpdate_mono _ _ _ _ _ (fun rc hc => (receiver.tick_call rc r).mpr hc) h
  | close =>
    simp only [step]
    rw [Close_state]
    split <;> exact h

theorem step_returnedTo_new (p : pool) (op : Op) (i : Nat) (r : Resource)
    (h : returnedTo (step p op).heap i r) : returnedTo p.heap i r ∨ r ∈ (step p op).out := by
  cases op with
  | take =>
    obtain ⟨rc, hheap, hout⟩ := Take_shape p
    simp only [step] at h ⊢
    rw [hheap] at h
    rcases returnedTo_append _ _ _ _ h with h1 | ⟨_, hc⟩
    · exact Or.inl h1
    · rcases hout with ⟨_, hno⟩ | ⟨r1, ho, hc1, _⟩
      · exact absurd hc (hno r)
      · rw [hc1] at hc
        cases hc
        right
        rw [ho]
        simp
  | ret x =>
    simp only [step] at h ⊢
    rcases Return_shape p x with ⟨h1, _⟩ | ⟨j, rc, hj, hwait, h1, h2⟩
    · rw [h1] at h
      exact Or.inl h
    · rw [h1] at h
      rcases returnedTo_heapUpdate _ _ _ _ _ h with ⟨_, h3⟩ | ⟨_, rc1, _, hc⟩
      · exact Or.inl h3
      · simp only at hc
        cases hc
        right
        rw [h2]
        simp
  | expire j =>
    simp only [step] at h ⊢
    rcases returnedTo_heapUpdate _ _ _ _ _ h with ⟨_, h3⟩ | ⟨e, rc1, hrc1, hc⟩
    · exact Or.inl h3
    · left
      subst e
      exact ⟨rc1, hrc1, (receiver.tick_call rc1 r).mp hc⟩
  | close =>
    simp only [step] at h ⊢
    rw [Close_state] at h
    left
    split at h <;> exact h

theorem step_out (p : pool) (op : Op) (r : Resource) (h : r ∈ (step p op).out) :
    r ∈ p.out ∨ handedOut (step p op) r := by
  cases op with
  | take =>
    obtain ⟨rc, hheap, hout⟩ := Take_shape p
    simp only [step] at h ⊢
    rcases hout with ⟨ho, _⟩ | ⟨r1, ho, hc1, _⟩
    · rw [ho] at h
      exact Or.inl h
    · rw [ho] at h
      rcases List.mem_cons.mp h with e | h1
      · right
        subst e
        refine ⟨p.heap.length, rc, ?_, hc1⟩
        rw [hheap]
        simp
      · exact Or.inl h1
  | ret x =>
    simp only [step] at h ⊢
    rcases Return_shape p x with ⟨_, h2⟩ | ⟨j, rc, hj, hwait, h1, h2⟩
    · exact Or.inl (h2 r h)
    · rw [h2] at h
      rcases List.mem_cons.mp h with e | h3
      · right
        subst e
        refine ⟨j, { rc with call := Call.done (some r) none }, ?_, rfl⟩
        rw [h1, heapUpdate_getElem?]
        simp [hj]
      · exact Or.inl (List.mem_of_mem_erase h3)
  | expire j =>
    simp only [step] at h
    exact Or.inl h
  | close =>
    simp only [step] at h
    rw [Close_state] at h
    left
    split at h <;> exact h

/-- With a generator and parameters, `NewPool` returns the filled pool when `make`
accepts the capacity and panics otherwise. -/
theorem NewPool_some (maxLen : Nat) (g : Generator) (params : PoolParams) :
    NewPool maxLen (some g) (some params) =
      if (if params.MaxResources ≤ 0 then DefaultMaxResources else params.MaxResources)
          ≤ maxLen then
        NewPoolOutcome.ok
          { max := if params.MaxResources ≤ 0 then DefaultMaxResources else params.MaxResources,
            gen := g,
            calls := if params.MaxResources ≤ 0 then DefaultMaxResources
              else params.MaxResources,
            regenerate := false,
            timeout := if params.Timeout = 0 then DefaultTakeTimeout else params.Timeout,
            check := if params.Check ≤ 0 then DefaultAliveCheck else params.Check,
            closed := false,
            resources := (List.range (if params.MaxResources ≤ 0 then DefaultMaxResources
              else params.MaxResources)).map g,
            out := [], requests := newStack, heap := [], closeCalls := [] }
      else NewPoolOutcome.panic := rfl

/-- A pool fresh from `NewPool` has nothing checked out, nobody waiting and no
receiver allocated. -/
theorem NewPool_ok_fresh (maxLen : Nat) (g : Generator) (params : PoolParams) (p0 : pool)
    (h : NewPool maxLen (some g) (some params) = NewPoolOutcome.ok p0) :
    p0.out = [] ∧ p0.requests = [] ∧ p0.heap = [] := by
  rw [NewPool_some] at h
  by_cases hfit : (if params.MaxResources ≤ 0 then DefaultMaxResources
      else params.MaxResources) ≤ maxLen
  · rw [if_pos hfit] at h
    cases h
    exact ⟨rfl, rfl, rfl⟩
  · rw [if_neg hfit] at h
    cases h

/-- The capacity after defaulting: `max <= 0` on a `uint` is `max == 0`. -/
theorem NewPool_capacity (params : PoolParams) :
    (if params.MaxResources ≤ 0 then DefaultMaxResources else params.MaxResources) =
      (if params.MaxResources ≠ 0 then params.MaxResources else 10) := by
  by_cases h : params.MaxResources = 0
  · simp [h, DefaultMaxResources]
  · have : ¬ params.MaxResources ≤ 0 := by omega
    simp [h, this]

/-- In every reachable state, whatever is checked out was returned by some `Take`. -/
theorem out_handedOut (p : pool) (hp : Reachable p) : ∀ r ∈ p.out, handedOut p r := by
  obtain ⟨maxLen, g, params, p0, ops, h0, hrun⟩ := hp
  have hinit : ∀ r ∈ p0.out, handedOut p0 r := by
    intro r hr
    rw [(NewPool_ok_fresh maxLen g params p0 h0).1] at hr
    cases hr
  clear h0
  induction ops generalizing p0 with
  | nil =>
    simp only [run, List.foldl] at hrun
    subst hrun
    exact hinit
  | cons op ops ih =>
    simp only [run, List.foldl] at hrun
    apply ih (step p0 op) hrun
    intro r hr
    rcases step_out p0 op r hr with h1 | h1
    · obtain ⟨i, hi⟩ := hinit r h1
      exact ⟨i, step_returnedTo_mono p0 op i r hi⟩
    · exact h1

/-! ## The capacity is never written -/

theorem Return.loop_max (r : Resource) (n : Nat) (p : pool) :
    (Return.loop r n p).1.max = p.max := by
  induction n generalizing p with
  | zero => simp [Return.loop]
  | succ n ih =>
    rcases nil_or_snoc p.requests with h | ⟨pre, x, h⟩
    · rw [Return.loop_nil r n p h]
    · rw [Return.loop_concat r n p pre x h]
      split
      · rfl
      · split
        · exact ih _
        · split <;> rfl

theorem Take_max (p : pool) : (Take p).1.max = p.max := by
  rcases nil_or_snoc p.resources with h | ⟨pre, x, h⟩
  · rw [Take_nil p h]
  · rcases hx : x.alive with ⟨ok, _ | e⟩
    · cases ok
      · rw [Take_dead p pre x h hx]
      · rw [Take_live p pre x h hx]
    · rw [Take_error p pre x ok e h hx]

theorem step_max (p : pool) (op : Op) : (step p op).max = p.max := by
  cases op with
  | take => exact Take_max p
  | ret r =>
    simp only [step]
    by_cases hr : r ∈ p.out
    · rw [Return_managed p r hr, Return.loop_max]
    · rw [Return_unmanaged p r hr]
  | expire j => rfl
  | close =>
    simp only [step]
    rw [Close_state]
    split <;> rfl

theorem run_max (p : pool) (ops : List Op) : (run p ops).max = p.max := by
  induction ops generalizing p with
  | nil => rfl
  | cons op ops ih =>
    simp only [run, List.foldl]
    exact (ih (step p op)).trans (step_max p op)

/-! ## The example states are what `NewPool` builds -/

theorem examplePool_eq :
    NewPool maxSliceLen (some testGenerator) (some { MaxResources := 2, Timeout := 0, Check := 0 }) =
      NewPoolOutcome.ok examplePool := rfl

theorem deadPool_eq :
    NewPool maxSliceLen (some deadGenerator) (some { MaxResources := 1, Timeout := 0, Check := 0 }) =
      NewPoolOutcome.ok deadPool := rfl

/-! ## The pool bounds and partitions its resources (C1, C2) -/

/-- C1, evaluated on the code: with capacity 1, the run Take, Take (parked),
Return of the taken resource (handed to the parked Take), Take ends with two
entries in the checked-out set. Return pushes the resource on the available
set before it hands it to the waiter, so the next Take pops it a second time. -/
theorem checked_out_exceeds_capacity :
    ∃ p0 : pool,
      NewPool maxSliceLen (some testGenerator)
        (some { MaxResources := 1, Timeout := TimeoutBlocking, Check := 0 }) = NewPoolOutcome.ok p0 ∧
      Max p0 = 1 ∧
      (run p0 [Op.take, Op.take, Op.ret (testGenerator 0), Op.take]).out =
        [testGenerator 0, testGenerator 0] ∧
      Max p0 < (run p0 [Op.take, Op.take, Op.ret (testGenerator 0), Op.take]).out.length :=
  ⟨_, rfl, rfl, by decide, by decide⟩

/-- C2, evaluated on the code: with capacity 1, after Take, a second Take that
parks, and Return of the taken resource, the parked Take has returned that
resource and it is a member of the available set and of the checked-out set. -/
theorem handed_off_resource_in_both_sets :
    ∃ p0 : pool,
      NewPool maxSliceLen (some testGenerator)
        (some { MaxResources := 1, Timeout := TimeoutBlocking, Check := 0 }) = NewPoolOutcome.ok p0 ∧
      (Take (run p0 [Op.take])).2 = TakeOutcome.parked 1 ∧
      (Return (run p0 [Op.take, Op.take]) (testGenerator 0)).2 = Outcome.returned none ∧
      (run p0 [Op.take, Op.take, Op.ret (testGenerator 0)]).heap[1]?.map receiver.call =
        some (Call.done (some (testGenerator 0)) none) ∧
      (run p0 [Op.take, Op.take, Op.ret (testGenerator 0)]).resources = [testGenerator 0] ∧
      (run p0 [Op.take, Op.take, Op.ret (testGenerator 0)]).out = [testGenerator 0] :=
  ⟨_, rfl, by decide, by decide, by decide, by decide, by decide⟩

/-! ## Order of reuse and of service (C3, C4) -/

/-- C3, evaluated on the code: with capacity 2 and both resources A and B
taken, after Return(A) and then Return(B) the next Take returns A, the one
returned first: push writes index 0 and pop removes index len-1. -/
theorem Take_after_two_returns_yields_first :
    ∃ p0 : pool,
      NewPool maxSliceLen (some testGenerator) (some { MaxResources := 2, Timeout := 0, Check := 0 }) = NewPoolOutcome.ok p0 ∧
      (run p0 [Op.take, Op.take]).out = [testGenerator 0, testGenerator 1] ∧
      (run p0 [Op.take, Op.take]).requests = [] ∧
      testGenerator 0 ≠ testGenerator 1 ∧
      (Take (run p0 [Op.take, Op.take, Op.ret (testGenerator 0), Op.ret (testGenerator 1)])).2 =
        TakeOutcome.returned (some (testGenerator 0)) none :=
  ⟨_, rfl, by decide, by decide, by decide, by decide⟩

/-- C4, evaluated on the code: with capacity 1 and the resource taken, two
further Takes park on receivers 1 and then 2; Return hands the resource to
receiver 1, which has waited longest, and leaves receiver 2 waiting on the
stack. -/
theorem Return_serves_longest_waiting :
    ∃ p0 : pool,
      NewPool maxSliceLen (some testGenerator)
        (some { MaxResources := 1, Timeout := TimeoutBlocking, Check := 0 }) = NewPoolOutcome.ok p0 ∧
      (Take (run p0 [Op.take])).2 = TakeOutcome.parked 1 ∧
      (Take (run p0 [Op.take, Op.take])).2 = TakeOutcome.parked 2 ∧
      (run p0 [Op.take, Op.take, Op.take]).requests = [2, 1] ∧
      (run p0 [Op.take, Op.take, Op.take]).heap.map receiver.call =
        [Call.done (some (testGenerator 0)) none, Call.waiting, Call.waiting] ∧
      (Return (run p0 [Op.take, Op.take, Op.take]) (testGenerator 0)).2 = Outcome.returned none ∧
      (run p0 [Op.take, Op.take, Op.take, Op.ret (testGenerator 0)]).heap.map receiver.call =
        [Call.done (some (testGenerator 0)) none, Call.done (some (testGenerator 0)) none,
          Call.waiting] ∧
      (run p0 [Op.take, Op.take, Op.take, Op.ret (testGenerator 0)]).requests = [2] :=
  ⟨_, rfl, by decide, by decide, by decide, by decide, by decide, by decide, by decide⟩

/-! ## Return of an unmanaged resource (C5) -/

/-- C5: in every pool state and for every resource r, Return(r) returns
ErrUnmanagedResource exactly when r is not in the checked-out set, and then
the whole pool state, the two sets and the waiter stack included, is unchanged. -/
theorem Return_unmanaged_iff (p : pool) (r : Resource) :
    ((Return p r).2 = Outcome.returned (some Error.ErrUnmanagedResource) ↔ r ∉ p.out) ∧
    (r ∉ p.out → (Return p r).1 = p) := by
  constructor
  · constructor
    · intro h hin
      rw [Return_managed p r hin] at h
      exact Return.loop_no_error _ _ _ _ h
    · intro h
      rw [Return_unmanaged p r h]
  · intro h
    rw [Return_unmanaged p r h]

/-! ## Take and Return with nobody waiting (C6) -/

/-- C6, as stated, fails: with capacity 1, the run Take, Take (parked), Return,
Return leaves nobody parked and the live resource twice in the available set;
the next Take returns it with nil error and it is still in the available set. -/
theorem Take_leaves_duplicate_available :
    ∃ p0 : pool,
      NewPool maxSliceLen (some testGenerator)
        (some { MaxResources := 1, Timeout := TimeoutBlocking, Check := 0 }) = NewPoolOutcome.ok p0 ∧
      (run p0 [Op.take, Op.take, Op.ret (testGenerator 0), Op.ret (testGenerator 0)]).requests
        = [] ∧
      (run p0 [Op.take, Op.take, Op.ret (testGenerator 0), Op.ret (testGenerator 0)]).resources
        = [testGenerator 0, testGenerator 0] ∧
      (testGenerator 0).alive = (true, none) ∧
      (Take (run p0
        [Op.take, Op.take, Op.ret (testGenerator 0), Op.ret (testGenerator 0)])).2
        = TakeOutcome.returned (some (testGenerator 0)) none ∧
      testGenerator 0 ∈ (Take (run p0
        [Op.take, Op.take, Op.ret (testGenerator 0), Op.ret (testGenerator 0)])).1.resources :=
  ⟨_, rfl, by decide, by decide, by decide, by decide, by decide⟩

/-- C6, amended: in every pool state where no Take is parked and every available
resource probes alive, Take on a non-empty available set returns a resource with
nil error, Available drops by 1, the checked-out count rises by 1, the resource
is in the checked-out set, and it is no longer available when the available set
held it once; Return(r) of a checked-out r returns nil, raises Available by 1,
lowers the checked-out count by 1, erases the first occurrence of r from the
checked-out set (the others keep their order) and puts r in the available set. -/
theorem Take_Return_without_waiters (p : pool) (hw : noWaiters p)
    (hlive : ∀ x ∈ p.resources, x.alive = (true, none)) :
    (p.resources ≠ [] →
      ∃ r, (Take p).2 = TakeOutcome.returned (some r) none ∧
        Available (Take p).1 = Available p - 1 ∧
        (Take p).1.out.length = p.out.length + 1 ∧
        r ∈ (Take p).1.out ∧
        (p.resources.count r = 1 → r ∉ (Take p).1.resources)) ∧
    (∀ r ∈ p.out,
      (Return p r).2 = Outcome.returned none ∧
        Available (Return p r).1 = Available p + 1 ∧
        (Return p r).1.out.length + 1 = p.out.length ∧
        (Return p r).1.out = p.out.erase r ∧
        r ∈ (Return p r).1.resources) := by
  constructor
  · intro hne
    rcases nil_or_snoc p.resources with h | ⟨pre, x, h⟩
    · exact absurd h hne
    · have hx : x.alive = (true, none) := hlive x (by simp [h])
      refine ⟨x, ?_⟩
      rw [Take_live p pre x h hx]
      refine ⟨rfl, ?_, ?_, ?_, ?_⟩
      · simp [Available, h]
      · simp
      · simp
      · intro hc hin
        simp only at hin
        rw [h, List.count_append] at hc
        have : 0 < List.count x pre := List.count_pos_iff.mpr hin
        simp at hc
        omega
  · intro r hr
    have hw2 : noWaiters { p with out := p.out.erase r, resources := r :: p.resources } := hw
    rw [Return_managed p r hr, Return.loop_resolved r _ _ hw2 (Nat.lt_succ_self _)]
    refine ⟨rfl, ?_, ?_, rfl, ?_⟩
    · simp [Available]
    · simp only
      rw [List.length_erase_of_mem hr]
      have : 0 < p.out.length := List.length_pos_of_mem hr
      omega
    · simp

/-- The amended C6 at the pool of capacity 2 after one Take. -/
theorem Take_Return_without_waiters_witness :
    noWaiters (step examplePool Op.take) ∧
    (∀ x ∈ (step examplePool Op.take).resources, x.alive = (true, none)) ∧
    ((step examplePool Op.take).resources ≠ [] →
      ∃ r, (Take (step examplePool Op.take)).2 = TakeOutcome.returned (some r) none ∧
        Available (Take (step examplePool Op.take)).1 = Available (step examplePool Op.take) - 1 ∧
        (Take (step examplePool Op.take)).1.out.length
          = (step examplePool Op.take).out.length + 1 ∧
        r ∈ (Take (step examplePool Op.take)).1.out ∧
        ((step examplePool Op.take).resources.count r = 1 →
          r ∉ (Take (step examplePool Op.take)).1.resources)) ∧
    (∀ r ∈ (step examplePool Op.take).out,
      (Return (step examplePool Op.take) r).2 = Outcome.returned none ∧
        Available (Return (step examplePool Op.take) r).1
          = Available (step examplePool Op.take) + 1 ∧
        (Return (step examplePool Op.take) r).1.out.length + 1
          = (step examplePool Op.take).out.length ∧
        (Return (step examplePool Op.take) r).1.out = (step examplePool Op.take).out.erase r ∧
        r ∈ (Return (step examplePool Op.take) r).1.resources) :=
  have hw : noWaiters (step examplePool Op.take) := fun i hi => by
    have h : (step examplePool Op.take).requests = [] := by decide
    rw [h] at hi
    cases hi
  have hlive : ∀ x ∈ (step examplePool Op.take).resources, x.alive = (true, none) := by
    decide
  ⟨hw, hlive, Take_Return_without_waiters (step examplePool Op.take) hw hlive⟩

/-! ## Manages (C7) -/

/-- C7, as stated, fails: with capacity 1, the resource taken and a second Take
parked, Return of the resource succeeds and hands it to the parked Take, so
Manages is true for it right after the successful Return. -/
theorem Manages_true_after_handoff :
    ∃ p0 : pool,
      NewPool maxSliceLen (some testGenerator)
        (some { MaxResources := 1, Timeout := TimeoutBlocking, Check := 0 }) = NewPoolOutcome.ok p0 ∧
      (Return (run p0 [Op.take, Op.take]) (testGenerator 0)).2 = Outcome.returned none ∧
      Manages (Return (run p0 [Op.take, Op.take]) (testGenerator 0)).1 (testGenerator 0) = true :=
  ⟨_, rfl, by decide, by decide⟩

/-- C7, amended: in every reachable pool state, Manages(r) is true exactly when r
is in the checked-out set; it is true right after any step in which a call of
Take (immediate, or parked and served by Return) returns r; it is false right
after a successful Return(r) when no Take was parked and r was checked out
once; and it is false for a resource that no Take has returned. -/
theorem Manages_iff_checked_out (p : pool) (r : Resource) (hp : Reachable p) :
    (Manages p r = true ↔ r ∈ p.out) ∧
    (∀ (op : Op) (i : Nat), ¬ returnedTo p.heap i r → returnedTo (step p op).heap i r →
      Manages (step p op) r = true) ∧
    ((Return p r).2 = Outcome.returned none → noWaiters p → p.out.count r = 1 →
      Manages (Return p r).1 r = false) ∧
    (¬ handedOut p r → Manages p r = false) := by
  refine ⟨?_, ?_, ?_, ?_⟩
  · rw [Manages_eq]
    simp
  · intro op i hold hnew
    rw [Manages_eq]
    rcases step_returnedTo_new p op i r hnew with h | h
    · exact absurd h hold
    · simp [h]
  · intro _ hw hc
    have hr : r ∈ p.out := List.count_pos_iff.mp (by omega)
    have hw2 : noWaiters { p with out := p.out.erase r, resources := r :: p.resources } := hw
    rw [Return_managed p r hr, Return.loop_resolved r _ _ hw2 (Nat.lt_succ_self _), Manages_eq]
    simp only [decide_eq_false_iff_not]
    intro hin
    have : 0 < (p.out.erase r).count r := List.count_pos_iff.mpr hin
    rw [List.count_erase_self] at this
    omega
  · intro hno
    rw [Manages_eq]
    simp only [decide_eq_false_iff_not]
    intro hin
    exact hno (out_handedOut p hp r hin)

/-- The amended C7 at the pool of capacity 2 after one Take, for the resource taken. -/
theorem Manages_iff_checked_out_witness :
    Reachable (step examplePool Op.take) ∧
    ((Manages (step examplePool Op.take) (testGenerator 1) = true ↔
        testGenerator 1 ∈ (step examplePool Op.take).out) ∧
      (∀ (op : Op) (i : Nat), ¬ returnedTo (step examplePool Op.take).heap i (testGenerator 1) →
        returnedTo (step (step examplePool Op.take) op).heap i (testGenerator 1) →
        Manages (step (step examplePool Op.take) op) (testGenerator 1) = true) ∧
      ((Return (step examplePool Op.take) (testGenerator 1)).2 = Outcome.returned none →
        noWaiters (step examplePool Op.take) →
        (step examplePool Op.take).out.count (testGenerator 1) = 1 →
        Manages (Return (step examplePool Op.take) (testGenerator 1)).1 (testGenerator 1)
          = false) ∧
      (¬ handedOut (step examplePool Op.take) (testGenerator 1) →
        Manages (step examplePool Op.take) (testGenerator 1) = false)) :=
  have hp : Reachable (step examplePool Op.take) :=
    ⟨maxSliceLen, testGenerator, { MaxResources := 2, Timeout := 0, Check := 0 }, examplePool, [Op.take],
      rfl, rfl⟩
  ⟨hp, Manages_iff_checked_out (step examplePool Op.take) (testGenerator 1) hp⟩

/-! ## The liveness probe in Take (C8, C9) -/

/-- C8, as stated, fails: with capacity 1 and a generator of dead resources, the
run Take, Take (parked), Return leaves the handed-off resource both available
and checked out; the next Take pops it, its probe returns (false, nil), a fresh
resource is returned, and the popped one is still in the checked-out set. -/
theorem dead_resource_still_checked_out :
    ∃ p0 : pool,
      NewPool maxSliceLen (some deadGenerator)
        (some { MaxResources := 1, Timeout := TimeoutBlocking, Check := 0 }) = NewPoolOutcome.ok p0 ∧
      resources.pop (run p0 [Op.take, Op.take, Op.ret (deadGenerator 1)]).resources =
        some (deadGenerator 1, []) ∧
      (deadGenerator 1).alive = (false, none) ∧
      (Take (run p0 [Op.take, Op.take, Op.ret (deadGenerator 1)])).2 =
        TakeOutcome.returned (some (deadGenerator 2)) none ∧
      deadGenerator 1 ∈ (Take (run p0 [Op.take, Op.take, Op.ret (deadGenerator 1)])).1.out :=
  ⟨_, rfl, by decide, by decide, by decide, by decide⟩

/-- C8, amended: in every pool state whose available set is non-empty and whose
popped resource d probes (false, nil), Take returns with nil error the result of
exactly one further generator call, Available drops by 1 and the checked-out
count rises by 1 (the fresh resource is pushed on the checked-out set); and when
d occurred nowhere else in the two sets and the fresh resource is not d, then d
ends in neither set. -/
theorem Take_regenerates_dead (p : pool) (d : Resource) (rest : List Resource)
    (hpop : resources.pop p.resources = some (d, rest)) (hdead : d.alive = (false, none)) :
    (Take p).2 = TakeOutcome.returned (some (p.gen p.calls)) none ∧
    (Take p).1.calls = p.calls + 1 ∧
    Available (Take p).1 = Available p - 1 ∧
    (Take p).1.out.length = p.out.length + 1 ∧
    (Take p).1.resources = rest ∧
    (Take p).1.out = p.gen p.calls :: p.out ∧
    (d ∉ rest → d ∉ p.out → p.gen p.calls ≠ d →
      d ∉ (Take p).1.resources ∧ d ∉ (Take p).1.out) := by
  have h := resources.pop_eq_some _ _ _ hpop
  rw [Take_dead p rest d h hdead]
  refine ⟨rfl, rfl, ?_, ?_, rfl, rfl, ?_⟩
  · simp [Available, h]
  · simp
  · intro h1 h2 h3
    refine ⟨h1, ?_⟩
    simp only [List.mem_cons, not_or]
    exact ⟨fun e => h3 e.symm, h2⟩

/-- The amended C8 at the fresh pool of capacity 1 over dead resources. -/
theorem Take_regenerates_dead_witness :
    resources.pop deadPool.resources = some (deadGenerator 0, []) ∧
    (deadGenerator 0).alive = (false, none) ∧
    ((Take deadPool).2 = TakeOutcome.returned (some (deadPool.gen deadPool.calls)) none ∧
      (Take deadPool).1.calls = deadPool.calls + 1 ∧
      Available (Take deadPool).1 = Available deadPool - 1 ∧
      (Take deadPool).1.out.length = deadPool.out.length + 1 ∧
      (Take deadPool).1.resources = [] ∧
      (Take deadPool).1.out = deadPool.gen deadPool.calls :: deadPool.out ∧
      (deadGenerator 0 ∉ ([] : List Resource) → deadGenerator 0 ∉ deadPool.out →
        deadPool.gen deadPool.calls ≠ deadGenerator 0 →
        deadGenerator 0 ∉ (Take deadPool).1.resources ∧
          deadGenerator 0 ∉ (Take deadPool).1.out)) :=
  ⟨by decide, by decide,
    Take_regenerates_dead deadPool (deadGenerator 0) [] (by decide) (by decide)⟩

/-- C9, evaluated on the code: the pool of capacity 1 over `testGenerator2` holds
the resource with id 1, whose probe returns (false, errTestAlive). Take returns
(nil, errTestAlive) and adds nothing to the checked-out set, but the generator
is called once more: after the error is sent the goroutine falls through to
`if !ok { r = p.gen() }`. -/
theorem Take_probe_error_calls_generator :
    ∃ p0 : pool,
      NewPool maxSliceLen (some testGenerator2) (some { MaxResources := 1, Timeout := 0, Check := 0 })
        = NewPoolOutcome.ok p0 ∧
      p0.resources = [testGenerator2 0] ∧
      (testGenerator2 0).alive = (false, some errTestAlive) ∧
      p0.calls = 1 ∧
      (Take p0).2 = TakeOutcome.returned none (some errTestAlive) ∧
      (Take p0).1.out = [] ∧
      (Take p0).1.calls = 2 :=
  ⟨_, rfl, by decide, by decide, by decide, by decide, by decide, by decide⟩

/-! ## Defaults of NewPool (C10) -/

/-- C10, as stated, fails: with `MaxResources = 1 << 63`, a value of type `uint`,
and a non-nil generator, `make(resources, max)` panics and NewPool does not
succeed. -/
theorem NewPool_panics_on_huge_capacity :
    (2 ^ 63 : Nat) < 2 ^ 64 ∧
    NewPool maxSliceLen (some testGenerator)
      (some { MaxResources := 2 ^ 63, Timeout := 0, Check := 0 }) = NewPoolOutcome.panic :=
  ⟨by decide, rfl⟩

/-- C10, amended: for every PoolParams and non-nil generator whose capacity
(MaxResources when non-zero and 10 otherwise) is a length that
`make(resources, max)` accepts, NewPool succeeds; the capacity is as said; the
timeout is Timeout when non-zero (so a negative one is kept) and 50ms when zero;
the check interval is Check when positive and 1000ms otherwise; Max returns the
capacity, and it is the same after any run of Take, Return, timer ticks and
Close. -/
theorem NewPool_defaults (maxLen : Nat) (g : Generator) (params : PoolParams)
    (hfit : (if params.MaxResources ≠ 0 then params.MaxResources else 10) ≤ maxLen) :
    ∃ p : pool, NewPool maxLen (some g) (some params) = NewPoolOutcome.ok p ∧
      p.max = (if params.MaxResources ≠ 0 then params.MaxResources else 10) ∧
      p.timeout = (if params.Timeout ≠ 0 then params.Timeout else 50 * Millisecond) ∧
      (params.Timeout < 0 → p.timeout = params.Timeout) ∧
      p.check = (if 0 < params.Check then params.Check else 1000 * Millisecond) ∧
      Max p = p.max ∧
      ∀ ops : List Op, Max (run p ops) = Max p := by
  have hcap := NewPool_capacity params
  have hfit2 : (if params.MaxResources ≤ 0 then DefaultMaxResources
      else params.MaxResources) ≤ maxLen := by
    rw [hcap]
    exact hfit
  rw [NewPool_some, if_pos hfit2]
  refine ⟨_, rfl, hcap, ?_, ?_, ?_, rfl, ?_⟩
  · by_cases h : params.Timeout = 0
    · simp [h, DefaultTakeTimeout, Millisecond]
    · simp [h]
  · intro hneg
    have h : params.Timeout ≠ 0 := by omega
    simp [h]
  · by_cases h : 0 < params.Check
    · have : ¬ params.Check ≤ 0 := by omega
      simp [h, this]
    · have : params.Check ≤ 0 := by omega
      simp [h, this, DefaultAliveCheck, Millisecond]
  · intro ops
    exact run_max _ ops

/-- The amended C10 at `PoolParams{MaxResources: 5}` of the tests, on linux/amd64. -/
theorem NewPool_defaults_witness :
    (if (5 : Nat) ≠ 0 then 5 else 10) ≤ maxSliceLen ∧
    ∃ p : pool,
      NewPool maxSliceLen (some testGenerator)
        (some { MaxResources := 5, Timeout := 0, Check := 0 }) = NewPoolOutcome.ok p ∧
      p.max = (if (5 : Nat) ≠ 0 then 5 else 10) ∧
      p.timeout = (if (0 : Int) ≠ 0 then 0 else 50 * Millisecond) ∧
      ((0 : Int) < 0 → p.timeout = 0) ∧
      p.check = (if (0 : Int) < 0 then 0 else 1000 * Millisecond) ∧
      Max p = p.max ∧
      ∀ ops : List Op, Max (run p ops) = Max p :=
  ⟨by decide,
    NewPool_defaults maxSliceLen testGenerator { MaxResources := 5, Timeout := 0, Check := 0 }
      (by decide)⟩

/-! ## More example states that `NewPool` builds -/

theorem errorPool_eq :
    NewPool maxSliceLen (some testGenerator2) (some { MaxResources := 1, Timeout := 0, Check := 0 }) =
      NewPoolOutcome.ok errorPool := rfl

theorem range_map_getElem? (g : Generator) (n i : Nat) (h : i < n) :
    ((List.range n).map g)[i]? = some (g i) := by
  rw [List.getElem?_map, List.getElem?_range h]
  rfl

/-! ## The waiter stack of a reachable pool -/

theorem singlePool_eq :
    NewPool maxSliceLen (some testGenerator) (some { MaxResources := 1, Timeout := 0, Check := 0 }) =
      NewPoolOutcome.ok singlePool := rfl

/-- The requests and the heap after the loop of `Return`: a suffix of the stack was
popped, and the heap changed at most at one receiver of that suffix. -/
theorem Return.loop_popped (r : Resource) (n : Nat) (p : pool) :
    ∃ suffix : List Nat, p.requests = (Return.loop r n p).1.requests ++ suffix ∧
      ((Return.loop r n p).1.heap = p.heap ∨
        ∃ x ∈ suffix, (Return.loop r n p).1.heap =
          heapUpdate p.heap x (fun y => { y with call := Call.done (some r) none })) := by
  induction n generalizing p with
  | zero => exact ⟨[], by simp [Return.loop]⟩
  | succ n ih =>
    rcases nil_or_snoc p.requests with h | ⟨pre, x, h⟩
    · rw [Return.loop_nil r n p h]
      exact ⟨[], by simp⟩
    · rw [Return.loop_concat r n p pre x h]
      cases hget : p.heap[x]? with
      | none => exact ⟨[x], by simp [h]⟩
      | some rc =>
        by_cases hflag : (rc.replied || rc.timedOut) = true
        · simp only [hflag, if_true]
          obtain ⟨suffix, h1, h2⟩ := ih { p with requests := pre }
          refine ⟨suffix ++ [x], ?_, ?_⟩
          · rw [h, ← List.append_assoc]
            exact congrArg (fun l => l ++ [x]) h1
          · rcases h2 with h2 | ⟨y, hy, h2⟩
            · exact Or.inl h2
            · exact Or.inr ⟨y, by simp [hy], h2⟩
        · simp only [hflag, if_false]
          cases hcall : rc.call with
          | waiting => exact ⟨[x], by simp [h], Or.inr ⟨x, by simp, rfl⟩⟩
          | done a b => exact ⟨[x], by simp [h]⟩

theorem receiver.tick_sound (rc : receiver)
    (h : rc.call = Call.waiting ∨ rc.timedOut = true) :
    (receiver.tick rc).call = Call.waiting ∨ (receiver.tick rc).timedOut = true := by
  unfold receiver.tick
  cases ht : rc.timer <;> cases hc : rc.call <;> simp_all

theorem Take_requests (p : pool) :
    ((Take p).1.requests = p.requests ∧ ∃ rc, (Take p).1.heap = p.heap ++ [rc]) ∨
      ((Take p).1.requests = p.heap.length :: p.requests ∧
        (Take p).1.heap = p.heap ++ [receiver.start newReceiver p.timeout] ∧
        p.resources = []) := by
  rcases nil_or_snoc p.resources with h | ⟨pre, x, h⟩
  · right
    rw [Take_nil p h, heapUpdate_append_last]
    exact ⟨rfl, rfl, h⟩
  · left
    rcases hx : x.alive with ⟨ok, _ | e⟩
    · cases ok
      · rw [Take_dead p pre x h hx, heapUpdate_append_last]
        exact ⟨rfl, _, rfl⟩
      · rw [Take_live p pre x h hx, heapUpdate_append_last]
        exact ⟨rfl, _, rfl⟩
    · rw [Take_error p pre x ok e h hx, heapUpdate_append_last]
      exact ⟨rfl, _, rfl⟩

theorem getElem?_append_some {α : Type} (l : List α) (x : α) (i : Nat) (a : α)
    (h : l[i]? = some a) : (l ++ [x])[i]? = some a := by
  have hi : i < l.length := by
    by_contra hlt
    rw [List.getElem?_eq_none (Nat.le_of_not_lt hlt)] at h
    cases h
  rw [List.getElem?_append_left hi]
  exact h

theorem getElem?_lt {α : Type} (l : List α) (i : Nat) (a : α)
    (h : l[i]? = some a) : i < l.length := by
  by_contra hlt
  rw [List.getElem?_eq_none (Nat.le_of_not_lt hlt)] at h
  cases h

theorem step_waitersSound (p : pool) (op : Op) (h : waitersSound p) :
    waitersSound (step p op) := by
  obtain ⟨hnd, hall⟩ := h
  cases op with
  | take =>
    simp only [step]
    rcases Take_requests p with ⟨h1, rc, h2⟩ | ⟨h1, h2, _⟩
    · refine ⟨by rw [h1]; exact hnd, ?_⟩
      intro i hi
      rw [h1] at hi
      obtain ⟨rc0, hrc0, hs⟩ := hall i hi
      exact ⟨rc0, by rw [h2]; exact getElem?_append_some _ _ _ _ hrc0, hs⟩
    · refine ⟨?_, ?_⟩
      · rw [h1, List.nodup_cons]
        refine ⟨?_, hnd⟩
        intro hin
        obtain ⟨rc0, hrc0, _⟩ := hall _ hin
        exact Nat.lt_irrefl _ (getElem?_lt _ _ _ hrc0)
      · intro i hi
        rw [h1] at hi
        rw [h2]
        rcases List.mem_cons.mp hi with e | hi
        · subst e
          refine ⟨receiver.start newReceiver p.timeout, by simp, Or.inl ?_⟩
          rw [receiver.start_call]
          rfl
        · obtain ⟨rc0, hrc0, hs⟩ := hall i hi
          exact ⟨rc0, getElem?_append_some _ _ _ _ hrc0, hs⟩
  | ret r =>
    simp only [step]
    by_cases hr : r ∈ p.out
    · rw [Return_managed p r hr]
      obtain ⟨suffix, h1, h2⟩ := Return.loop_popped r (p.requests.length + 1)
        { p with out := p.out.erase r, resources := r :: p.resources }
      simp only at h1 h2
      rw [h1] at hnd
      refine ⟨(List.nodup_append.mp hnd).1, ?_⟩
      intro i hi
      obtain ⟨rc0, hrc0, hs⟩ := hall i (by rw [h1]; exact List.mem_append_left _ hi)
      rcases h2 with h2 | ⟨x, hx, h2⟩
      · exact ⟨rc0, by rw [h2]; exact hrc0, hs⟩
      · have hix : i ≠ x := by
          intro e
          subst e
          exact (List.nodup_append.mp hnd).2.2 hi hx
        exact ⟨rc0, by rw [h2, heapUpdate_getElem?]; simp [hix, hrc0], hs⟩
    · rw [Return_unmanaged p r hr]
      exact ⟨hnd, hall⟩
  | expire j =>
    simp only [step]
    refine ⟨hnd, ?_⟩
    intro i hi
    obtain ⟨rc0, hrc0, hs⟩ := hall i hi
    simp only
    rw [heapUpdate_getElem?]
    by_cases hij : i = j
    · subst hij
      exact ⟨receiver.tick rc0, by simp [hrc0], receiver.tick_sound rc0 hs⟩
    · exact ⟨rc0, by simp [hij, hrc0], hs⟩
  | close =>
    simp only [step]
    rw [Close_state]
    split
    · exact ⟨hnd, hall⟩
    · exact ⟨hnd, hall⟩

theorem reachable_waitersSound (p : pool) (hp : Reachable p) : waitersSound p := by
  obtain ⟨maxLen, g, params, p0, ops, h0, hrun⟩ := hp
  have hinit : waitersSound p0 := by
    unfold waitersSound
    rw [(NewPool_ok_fresh maxLen g params p0 h0).2.1]
    exact ⟨List.nodup_nil, fun i hi => by cases hi⟩
  clear h0
  induction ops generalizing p0 with
  | nil =>
    simp only [run, List.foldl] at hrun
    subst hrun
    exact hinit
  | cons op ops ih =>
    simp only [run, List.foldl] at hrun
    exact ih (step p0 op) hrun (step_waitersSound p0 op hinit)

theorem Return.loop_no_panic (r : Resource) (n : Nat) (p : pool)
    (hheap : ∀ i ∈ p.requests, ∃ rc : receiver, p.heap[i]? = some rc)
    (hn : p.requests.length < n) :
    (Return.loop r n p).2 ≠ Outcome.panic ∧ (Return.loop r n p).2 ≠ Outcome.unfinished := by
  induction n generalizing p with
  | zero => omega
  | succ n ih =>
    rcases nil_or_snoc p.requests with h | ⟨pre, x, h⟩
    · rw [Return.loop_nil r n p h]
      simp
    · rw [Return.loop_concat r n p pre x h]
      obtain ⟨rc, hrc⟩ := hheap x (by simp [h])
      simp only [hrc]
      split
      · apply ih { p with requests := pre }
        · intro i hi
          exact hheap i (by simp [h, hi])
        · rw [h] at hn
          simp at hn ⊢
          omega
      · split <;> simp

theorem Take_no_panic (p : pool) : (Take p).2 ≠ TakeOutcome.panic := by
  rcases nil_or_snoc p.resources with h | ⟨pre, x, h⟩
  · rw [Take_nil p h]
    simp
  · rcases hx : x.alive with ⟨ok, _ | e⟩
    · cases ok
      · rw [Take_dead p pre x h hx]
        simp
      · rw [Take_live p pre x h hx]
        simp
    · rw [Take_error p pre x ok e h hx]
      simp

theorem Close_outcome (p : pool) :
    (Close p).2 = Outcome.returned (some Error.ErrAlreadyClosed) ∨
      (Close p).2 = Outcome.returned none ∨ (Close p).2 = Outcome.blocked := by
  unfold Close
  split
  · exact Or.inl rfl
  · simp only
    split
    · exact Or.inr (Or.inl rfl)
    · exact Or.inr (Or.inr rfl)

/-! ## A parked `Take` and its ticker -/

/-- A step that is not a call of `Return` changes an allocated receiver only by a
tick of its own ticker. -/
theorem step_entry (q : pool) (op : Op) (j : Nat) (rc : receiver)
    (hj : q.heap[j]? = some rc) (hop : ∀ r : Resource, op ≠ Op.ret r) :
    (step q op).heap[j]? =
      if op = Op.expire j then some (receiver.tick rc) else some rc := by
  cases op with
  | take =>
    simp only [step]
    obtain ⟨rc1, h1, _⟩ := Take_shape q
    rw [h1, getElem?_append_some _ _ _ _ hj]
    simp
  | ret r => exact absurd rfl (hop r)
  | expire k =>
    simp only [step]
    rw [heapUpdate_getElem?]
    by_cases hk : k = j
    · subst hk
      simp [hj]
    · have hk2 : ¬ j = k := fun e => hk e.symm
      simp [hk, hk2, hj]
  | close =>
    simp only [step]
    rw [Close_state]
    split <;> simp [hj]

/-- With nothing available, a step that is not a call of `Return` leaves both
sets as they are. -/
theorem step_noReturn_sets (q : pool) (op : Op) (hres : q.resources = [])
    (hop : ∀ r : Resource, op ≠ Op.ret r) :
    (step q op).resources = [] ∧ (step q op).out = q.out := by
  cases op with
  | take =>
    simp only [step]
    rw [Take_nil q hres]
    exact ⟨hres, rfl⟩
  | ret r => exact absurd rfl (hop r)
  | expire k => exact ⟨hres, rfl⟩
  | close =>
    simp only [step]
    rw [Close_state]
    split
    · exact ⟨hres, rfl⟩
    · exact ⟨hres, rfl⟩

theorem receiver.tick_timed_out (rc : receiver)
    (h : rc.call = Call.done none (some Error.ErrTimeoutTakingResource) ∧ rc.timedOut = true) :
    (receiver.tick rc).call = Call.done none (some Error.ErrTimeoutTakingResource) ∧
      (receiver.tick rc).timedOut = true := by
  unfold receiver.tick
  cases ht : rc.timer <;> cases hc : rc.call <;> simp_all

theorem receiver.tick_armed (rc : receiver) (ht : rc.timer = Timer.armed)
    (hc : rc.call = Call.waiting) :
    (receiver.tick rc).call = Call.done none (some Error.ErrTimeoutTakingResource) ∧
      (receiver.tick rc).timedOut = true := by
  unfold receiver.tick
  simp [ht, hc]

/-- Once a parked `Take` has timed out it stays so, whatever follows without `Return`. -/
theorem run_timed_out (q : pool) (ops : List Op) (j : Nat) (out0 : List Resource)
    (hnr : noReturn ops) (hres : q.resources = []) (hout : q.out = out0)
    (hq : ∃ rc : receiver, q.heap[j]? = some rc ∧
      rc.call = Call.done none (some Error.ErrTimeoutTakingResource) ∧ rc.timedOut = true) :
    (run q ops).out = out0 ∧
      ∃ rc : receiver, (run q ops).heap[j]? = some rc ∧
        rc.call = Call.done none (some Error.ErrTimeoutTakingResource) ∧ rc.timedOut = true := by
  induction ops generalizing q with
  | nil => exact ⟨hout, hq⟩
  | cons op ops ih =>
    have hop : ∀ r : Resource, op ≠ Op.ret r := fun r e => hnr r (by simp [e])
    have hnr2 : noReturn ops := fun r hr => hnr r (List.mem_cons_of_mem _ hr)
    obtain ⟨rc, hrc, hc⟩ := hq
    have hsets := step_noReturn_sets q op hres hop
    have hent := step_entry q op j rc hrc hop
    simp only [run, List.foldl]
    apply ih (step q op) hnr2 hsets.1 (hsets.2.trans hout)
    by_cases he : op = Op.expire j
    · rw [if_pos he] at hent
      exact ⟨_, hent, receiver.tick_timed_out rc hc⟩
    · rw [if_neg he] at hent
      exact ⟨rc, hent, hc⟩

/-- A parked `Take` with an armed ticker waits until the first tick and has timed
out from then on, whatever else happens without `Return`. -/
theorem run_armed (q : pool) (ops : List Op) (j : Nat) (out0 : List Resource)
    (hnr : noReturn ops) (hres : q.resources = []) (hout : q.out = out0)
    (hq : ∃ rc : receiver, q.heap[j]? = some rc ∧ rc.timer = Timer.armed ∧
      rc.call = Call.waiting ∧ rc.timedOut = false) :
    (run q ops).out = out0 ∧
      (Op.expire j ∉ ops →
        ∃ rc : receiver, (run q ops).heap[j]? = some rc ∧
          rc.call = Call.waiting ∧ rc.timedOut = false) ∧
      (Op.expire j ∈ ops →
        ∃ rc : receiver, (run q ops).heap[j]? = some rc ∧
          rc.call = Call.done none (some Error.ErrTimeoutTakingResource) ∧
          rc.timedOut = true) := by
  induction ops generalizing q with
  | nil =>
    obtain ⟨rc, hrc, _, hc, ht⟩ := hq
    exact ⟨hout, fun _ => ⟨rc, hrc, hc, ht⟩, fun h => by cases h⟩
  | cons op ops ih =>
    have hop : ∀ r : Resource, op ≠ Op.ret r := fun r e => hnr r (by simp [e])
    have hnr2 : noReturn ops := fun r hr => hnr r (List.mem_cons_of_mem _ hr)
    obtain ⟨rc, hrc, har, hc, ht⟩ := hq
    have hsets := step_noReturn_sets q op hres hop
    have hent := step_entry q op j rc hrc hop
    by_cases he : op = Op.expire j
    · rw [if_pos he] at hent
      have hdone := run_timed_out (step q op) ops j out0 hnr2 hsets.1 (hsets.2.trans hout)
        ⟨_, hent, receiver.tick_armed rc har hc⟩
      simp only [run, List.foldl]
      refine ⟨hdone.1, ?_, fun _ => hdone.2⟩
      intro hnot
      exact absurd (by simp [he]) hnot
    · rw [if_neg he] at hent
      have hrec := ih (step q op) hnr2 hsets.1 (hsets.2.trans hout) ⟨rc, hent, har, hc, ht⟩
      simp only [run, List.foldl]
      refine ⟨hrec.1, ?_, ?_⟩
      · intro hnot
        exact hrec.2.1 (fun hin => hnot (List.mem_cons_of_mem _ hin))
      · intro hin
        rcases List.mem_cons.mp hin with e | hin
        · exact absurd e.symm he
        · exact hrec.2.2 hin

/-- A receiver without a ticker is never marked timed out and its `Take` never gets
the timeout error, whatever the step. -/
theorem step_entry_off (q : pool) (op : Op) (j : Nat)
    (hq : ∃ rc : receiver, q.heap[j]? = some rc ∧ rc.timer = Timer.off ∧
      rc.timedOut = false ∧ rc.ticks = 0 ∧
      rc.call ≠ Call.done none (some Error.ErrTimeoutTakingResource)) :
    ∃ rc : receiver, (step q op).heap[j]? = some rc ∧ rc.timer = Timer.off ∧
      rc.timedOut = false ∧ rc.ticks = 0 ∧
      rc.call ≠ Call.done none (some Error.ErrTimeoutTakingResource) := by
  obtain ⟨rc, hrc, h1, h2, h3, h4⟩ := hq
  cases op with
  | take =>
    simp only [step]
    obtain ⟨rc1, hh, _⟩ := Take_shape q
    exact ⟨rc, by rw [hh]; exact getElem?_append_some _ _ _ _ hrc, h1, h2, h3, h4⟩
  | ret r =>
    simp only [step]
    rcases Return_shape q r with ⟨hh, _⟩ | ⟨x, rcx, _, _, hh, _⟩
    · exact ⟨rc, by rw [hh]; exact hrc, h1, h2, h3, h4⟩
    · rw [hh, heapUpdate_getElem?]
      by_cases hjx : j = x
      · subst hjx
        refine ⟨{ rc with call := Call.done (some r) none }, by simp [hrc], h1, h2, h3, ?_⟩
        simp
      · exact ⟨rc, by simp [hjx, hrc], h1, h2, h3, h4⟩
  | expire k =>
    simp only [step]
    rw [heapUpdate_getElem?]
    by_cases hjk : j = k
    · subst hjk
      have ht : receiver.tick rc = rc := by
        unfold receiver.tick
        simp [h1]
      exact ⟨rc, by simp [hrc, ht], h1, h2, h3, h4⟩
    · exact ⟨rc, by simp [hjk, hrc], h1, h2, h3, h4⟩
  | close =>
    simp only [step]
    rw [Close_state]
    split
    · exact ⟨rc, hrc, h1, h2, h3, h4⟩
    · exact ⟨rc, hrc, h1, h2, h3, h4⟩

theorem run_entry_off (q : pool) (ops : List Op) (j : Nat)
    (hq : ∃ rc : receiver, q.heap[j]? = some rc ∧ rc.timer = Timer.off ∧
      rc.timedOut = false ∧ rc.ticks = 0 ∧
      rc.call ≠ Call.done none (some Error.ErrTimeoutTakingResource)) :
    ∃ rc : receiver, (run q ops).heap[j]? = some rc ∧ rc.timer = Timer.off ∧
      rc.timedOut = false ∧ rc.ticks = 0 ∧
      rc.call ≠ Call.done none (some Error.ErrTimeoutTakingResource) := by
  induction ops generalizing q with
  | nil => exact hq
  | cons op ops ih =>
    simp only [run, List.foldl]
    exact ih (step q op) (step_entry_off q op j hq)

/-! ## Construction (C11, C12) -/

/-- C11, as stated, fails: with `MaxResources` the largest `uint` and a non-nil
generator, `make(resources, max)` panics before the generator is called: no
pool is returned. -/
theorem NewPool_panics_before_generating :
    (2 ^ 64 - 1 : Nat) < 2 ^ 64 ∧
    NewPool maxSliceLen (some testGenerator2)
      (some { MaxResources := 2 ^ 64 - 1, Timeout := 0, Check := 0 }) = NewPoolOutcome.panic :=
  ⟨by decide, rfl⟩

/-- C11, amended: for every non-nil generator and every PoolParams, with N the
capacity after defaulting, when N is a length that `make(resources, max)`
accepts, NewPool returns a pool after exactly N generator calls, with
Available() = N, an empty checked-out set, an empty waiter stack, and the
available slice holding at index i the resource of generator call number i. -/
theorem NewPool_fills_available (maxLen : Nat) (g : Generator) (params : PoolParams)
    (hfit : (if params.MaxResources ≠ 0 then params.MaxResources else 10) ≤ maxLen) :
    ∃ p : pool, NewPool maxLen (some g) (some params) = NewPoolOutcome.ok p ∧
      p.max = (if params.MaxResources ≠ 0 then params.MaxResources else 10) ∧
      p.calls = p.max ∧
      Available p = (p.max : Int) ∧
      p.out = [] ∧
      p.requests = [] ∧
      p.resources = (List.range p.max).map g ∧
      ∀ i : Nat, i < p.max → p.resources[i]? = some (g i) := by
  have hcap := NewPool_capacity params
  have hfit2 : (if params.MaxResources ≤ 0 then DefaultMaxResources
      else params.MaxResources) ≤ maxLen := by
    rw [hcap]
    exact hfit
  rw [NewPool_some, if_pos hfit2]
  refine ⟨_, rfl, hcap, rfl, ?_, rfl, rfl, rfl, ?_⟩
  · simp [Available]
  · intro i hi
    exact range_map_getElem? g _ i hi

/-- The amended C11 at `PoolParams{MaxResources: 2}` of the tests, on linux/amd64. -/
theorem NewPool_fills_available_witness :
    (if (2 : Nat) ≠ 0 then 2 else 10) ≤ maxSliceLen ∧
    ∃ p : pool,
      NewPool maxSliceLen (some testGenerator)
        (some { MaxResources := 2, Timeout := 0, Check := 0 }) = NewPoolOutcome.ok p ∧
      p.max = (if (2 : Nat) ≠ 0 then 2 else 10) ∧
      p.calls = p.max ∧
      Available p = (p.max : Int) ∧
      p.out = [] ∧
      p.requests = [] ∧
      p.resources = (List.range p.max).map testGenerator ∧
      ∀ i : Nat, i < p.max → p.resources[i]? = some (testGenerator i) :=
  ⟨by decide,
    NewPool_fills_available maxSliceLen testGenerator
      { MaxResources := 2, Timeout := 0, Check := 0 } (by decide)⟩

/-- C12: NewPool returns the error ErrGeneratorRequired exactly when the generator
is nil, whatever the PoolParams (a nil pointer included) and whatever length
`make` accepts; with a nil generator no pool is returned, and
ErrGeneratorRequired with a nil generator is the only way NewPool returns an
error. -/
theorem NewPool_generator_required (maxLen : Nat) (g : Option Generator)
    (params : Option PoolParams) :
    (NewPool maxLen g params = NewPoolOutcome.error Error.ErrGeneratorRequired ↔ g = none) ∧
    (g = none → ∀ p : pool, NewPool maxLen g params ≠ NewPoolOutcome.ok p) ∧
    (∀ e : Error, NewPool maxLen g params = NewPoolOutcome.error e →
      g = none ∧ e = Error.ErrGeneratorRequired) := by
  cases g with
  | none =>
    refine ⟨by simp [NewPool], ?_, ?_⟩
    · intro _ p h
      simp [NewPool] at h
    · intro e h
      simp only [NewPool] at h
      cases h
      exact ⟨rfl, rfl⟩
  | some f =>
    have hne : ∀ e : Error, NewPool maxLen (some f) params ≠ NewPoolOutcome.error e := by
      intro e h
      cases params with
      | none => simp [NewPool] at h
      | some ps =>
        rw [NewPool_some] at h
        by_cases hfit : (if ps.MaxResources ≤ 0 then DefaultMaxResources
            else ps.MaxResources) ≤ maxLen
        · rw [if_pos hfit] at h
          cases h
        · rw [if_neg hfit] at h
          cases h
    refine ⟨?_, ?_, ?_⟩
    · constructor
      · intro h
        exact absurd h (hne _)
      · intro h
        cases h
    · intro h
      cases h
    · intro e h
      exact absurd h (hne e)

/-! ## Close (C13, C14) -/

/-- C13, evaluated on the code: the pool of capacity 1 with its resource checked
out is not closed; its first Close() marks it closed but never returns, because
the wait group was raised by len(p.out) and nothing lowers it; a later Close()
returns ErrAlreadyClosed. -/
theorem Close_blocks_with_checked_out :
    ∃ p0 : pool,
      NewPool maxSliceLen (some testGenerator) (some { MaxResources := 1, Timeout := 0, Check := 0 })
        = NewPoolOutcome.ok p0 ∧
      (run p0 [Op.take]).out = [testGenerator 0] ∧
      (run p0 [Op.take]).closed = false ∧
      (Close (run p0 [Op.take])).2 = Outcome.blocked ∧
      (Close (run p0 [Op.take])).1.closed = true ∧
      (Close (Close (run p0 [Op.take])).1).2 = Outcome.returned (some Error.ErrAlreadyClosed) :=
  ⟨_, rfl, by decide, by decide, by decide, by decide, by decide⟩

/-- C14, evaluated on the code: with one resource available and one checked out,
the first Close() calls Close on the available resource only, but it counts the
checked-out resource in its wait group and waits on it for ever; once that
resource is returned, Close() returns nil. -/
theorem Close_waits_on_checked_out :
    (step examplePool Op.take).resources = [testGenerator 0] ∧
    (step examplePool Op.take).out = [testGenerator 1] ∧
    (step examplePool Op.take).closed = false ∧
    (Close (step examplePool Op.take)).1.closeCalls = [testGenerator 0] ∧
    (Close (step examplePool Op.take)).2 = Outcome.blocked ∧
    (Close (step (step examplePool Op.take) (Op.ret (testGenerator 1)))).2
      = Outcome.returned none :=
  ⟨by decide, by decide, by decide, by decide, by decide, by decide⟩

/-! ## Waiting for a resource (C15, C16) -/

/-- C15: in every pool state with an empty available set, Take() parks on a fresh
receiver pushed on the waiter stack and leaves the checked-out set unchanged.
With a positive timeout, in any run without Return the checked-out set stays
unchanged, the Take is still waiting before the first tick of its ticker, and
from that tick on it has returned (nil, ErrTimeoutTakingResource) with timedOut
set. With a timeout that is not positive no ticker is armed, and in any run
timedOut is never set and the timeout error is never delivered. -/
theorem Take_parks_and_times_out (p : pool) (h : p.resources = []) :
    (Take p).2 = TakeOutcome.parked p.heap.length ∧
    (Take p).1.requests = p.heap.length :: p.requests ∧
    (Take p).1.out = p.out ∧
    (Take p).1.heap[p.heap.length]? = some (receiver.start newReceiver p.timeout) ∧
    (0 < p.timeout → ∀ ops : List Op, noReturn ops →
      (run (Take p).1 ops).out = p.out ∧
      (Op.expire p.heap.length ∉ ops →
        ∃ rc : receiver, (run (Take p).1 ops).heap[p.heap.length]? = some rc ∧
          rc.call = Call.waiting ∧ rc.timedOut = false) ∧
      (Op.expire p.heap.length ∈ ops →
        ∃ rc : receiver, (run (Take p).1 ops).heap[p.heap.length]? = some rc ∧
          rc.call = Call.done none (some Error.ErrTimeoutTakingResource) ∧
          rc.timedOut = true)) ∧
    (p.timeout ≤ 0 → ∀ ops : List Op,
      ∃ rc : receiver, (run (Take p).1 ops).heap[p.heap.length]? = some rc ∧
        rc.timer = Timer.off ∧ rc.timedOut = false ∧ rc.ticks = 0 ∧
        rc.call ≠ Call.done none (some Error.ErrTimeoutTakingResource)) := by
  obtain ⟨q, hq⟩ : ∃ q : pool, q =
      { p with heap := p.heap ++ [receiver.start newReceiver p.timeout],
               requests := p.heap.length :: p.requests } := ⟨_, rfl⟩
  have hT : Take p = (q, TakeOutcome.parked p.heap.length) := by
    rw [Take_nil p h, heapUpdate_append_last, hq]
  have hres : q.resources = [] := by rw [hq]; exact h
  have hout : q.out = p.out := by rw [hq]
  have hget : q.heap[p.heap.length]? = some (receiver.start newReceiver p.timeout) := by
    rw [hq]
    simp
  rw [hT]
  refine ⟨rfl, by rw [hq], hout, hget, ?_, ?_⟩
  · intro hpos ops hnr
    apply run_armed q ops p.heap.length p.out hnr hres hout
    refine ⟨_, hget, ?_, ?_, ?_⟩
    · simp [receiver.start, hpos, newReceiver]
    · rw [receiver.start_call]
      rfl
    · simp [receiver.start, hpos, newReceiver]
  · intro hle ops
    apply run_entry_off q ops p.heap.length
    have hnot : ¬ p.timeout > 0 := by omega
    refine ⟨_, hget, ?_, ?_, ?_, ?_⟩ <;> simp [receiver.start, hnot, newReceiver]

/-- C15 at the pool of capacity 1 whose resource is taken. -/
theorem Take_parks_and_times_out_witness :
    drainedPool.resources = [] ∧
    (
      (Take drainedPool).2 = TakeOutcome.parked drainedPool.heap.length ∧
      (Take drainedPool).1.requests = drainedPool.heap.length :: drainedPool.requests ∧
      (Take drainedPool).1.out = drainedPool.out ∧
      (Take drainedPool).1.heap[drainedPool.heap.length]? = some (receiver.start newReceiver drainedPool.timeout) ∧
      (0 < drainedPool.timeout → ∀ ops : List Op, noReturn ops →
        (run (Take drainedPool).1 ops).out = drainedPool.out ∧
        (Op.expire drainedPool.heap.length ∉ ops →
          ∃ rc : receiver, (run (Take drainedPool).1 ops).heap[drainedPool.heap.length]? = some rc ∧
            rc.call = Call.waiting ∧ rc.timedOut = false) ∧
        (Op.expire drainedPool.heap.length ∈ ops →
          ∃ rc : receiver, (run (Take drainedPool).1 ops).heap[drainedPool.heap.length]? = some rc ∧
            rc.call = Call.done none (some Error.ErrTimeoutTakingResource) ∧
            rc.timedOut = true)) ∧
      (drainedPool.timeout ≤ 0 → ∀ ops : List Op,
        ∃ rc : receiver, (run (Take drainedPool).1 ops).heap[drainedPool.heap.length]? = some rc ∧
          rc.timer = Timer.off ∧ rc.timedOut = false ∧ rc.ticks = 0 ∧
          rc.call ≠ Call.done none (some Error.ErrTimeoutTakingResource))) :=
  ⟨by decide, Take_parks_and_times_out drainedPool (by decide)⟩

/-- C17, evaluated on the code: with the default (positive) timeout, a receiver
that Return has served is marked timedOut by the next tick of its ticker; and a
receiver that has timed out is marked timedOut a second time by the following
tick, after which the ticker goroutine is blocked for ever. -/
theorem receiver_served_then_timed_out :
    ∃ p0 : pool,
      NewPool maxSliceLen (some testGenerator) (some { MaxResources := 1, Timeout := 0, Check := 0 })
        = NewPoolOutcome.ok p0 ∧
      0 < p0.timeout ∧
      (Take (run p0 [Op.take])).2 = TakeOutcome.parked 1 ∧
      (run p0 [Op.take, Op.take, Op.ret (testGenerator 0), Op.expire 1]).heap[1]? =
        some { timedOut := true, replied := false,
               call := Call.done (some (testGenerator 0)) none,
               timer := Timer.stuck, ticks := 1 } ∧
      (run p0 [Op.take, Op.take, Op.expire 1, Op.expire 1]).heap[1]? =
        some { timedOut := true, replied := false,
               call := Call.done none (some Error.ErrTimeoutTakingResource),
               timer := Timer.stuck, ticks := 2 } :=
  ⟨_, rfl, by decide, by decide, by decide, by decide⟩

/-- C18, evaluated on the code: on the stack [1], push(2) followed by pop()
returns 1 and leaves [2], neither the pushed receiver nor the stack before the
push. On the empty stack push then pop returns the pushed receiver, isEmpty is
true and the size goes 0, 1, 0. -/
theorem push_pop_returns_oldest :
    stack.pop (stack.push [1] 2) = some (1, [2]) ∧
    stack.size (stack.push [1] 2) = 2 ∧
    (∀ p : Nat, stack.pop (stack.push newStack p) = some (p, newStack)) ∧
    stack.isEmpty newStack = true ∧
    (∀ p : Nat, stack.size newStack = 0 ∧ stack.size (stack.push newStack p) = 1) := by
  refine ⟨by decide, by decide, ?_, by decide, ?_⟩
  · intro p
    exact stack.pop_snoc [] p
  · intro p
    exact ⟨rfl, rfl⟩

/-! ## A failed probe drops the resource (C19) -/

/-- C19, as stated, fails: with capacity 1, the run Take (the dead resource is
replaced by a fresh one), Take (parked), Return of the fresh resource leaves it
available and checked out; the next Take pops it, its probe returns an error,
Take returns that error, and the popped resource is still checked out. -/
theorem failed_probe_resource_still_checked_out :
    ∃ p0 : pool,
      NewPool maxSliceLen (some mixedGenerator)
        (some { MaxResources := 1, Timeout := TimeoutBlocking, Check := 0 }) = NewPoolOutcome.ok p0 ∧
      resources.pop (run p0 [Op.take, Op.take, Op.ret (mixedGenerator 1)]).resources =
        some (mixedGenerator 1, []) ∧
      (mixedGenerator 1).alive = (true, some errTestAlive) ∧
      (Take (run p0 [Op.take, Op.take, Op.ret (mixedGenerator 1)])).2 =
        TakeOutcome.returned none (some errTestAlive) ∧
      mixedGenerator 1 ∈ (Take (run p0 [Op.take, Op.take, Op.ret (mixedGenerator 1)])).1.out :=
  ⟨_, rfl, by decide, by decide, by decide, by decide⟩

/-- C19, amended: in every pool state whose available set is non-empty and whose
popped resource d probes with a non-nil error e, Take returns (nil, e) and does
not restore the state: d is removed from the available slice, Available() drops
by exactly 1, the checked-out set is unchanged, the pool holds one entry fewer,
and d is in neither set when it occurred nowhere else in the two sets. -/
theorem Take_probe_error_drops_resource (p : pool) (d : Resource) (rest : List Resource)
    (ok : Bool) (e : Error)
    (hpop : resources.pop p.resources = some (d, rest)) (herr : d.alive = (ok, some e)) :
    (Take p).2 = TakeOutcome.returned none (some e) ∧
    (Take p).1.resources = rest ∧
    Available (Take p).1 = Available p - 1 ∧
    (Take p).1.out = p.out ∧
    (Take p).1.resources.length + (Take p).1.out.length + 1
      = p.resources.length + p.out.length ∧
    (d ∉ rest → d ∉ p.out → d ∉ (Take p).1.resources ∧ d ∉ (Take p).1.out) := by
  have h := resources.pop_eq_some _ _ _ hpop
  rw [Take_error p rest d ok e h herr]
  refine ⟨rfl, rfl, ?_, rfl, ?_, ?_⟩
  · simp [Available, h]
  · simp [h]
    omega
  · intro h1 h2
    exact ⟨h1, h2⟩

/-- The amended C19 at the fresh pool of capacity 1 over `testGenerator2`. -/
theorem Take_probe_error_drops_resource_witness :
    resources.pop errorPool.resources = some (testGenerator2 0, []) ∧
    (testGenerator2 0).alive = (false, some errTestAlive) ∧
    ((Take errorPool).2 = TakeOutcome.returned none (some errTestAlive) ∧
      (Take errorPool).1.resources = [] ∧
      Available (Take errorPool).1 = Available errorPool - 1 ∧
      (Take errorPool).1.out = errorPool.out ∧
      (Take errorPool).1.resources.length + (Take errorPool).1.out.length + 1
        = errorPool.resources.length + errorPool.out.length ∧
      (testGenerator2 0 ∉ ([] : List Resource) → testGenerator2 0 ∉ errorPool.out →
        testGenerator2 0 ∉ (Take errorPool).1.resources ∧
          testGenerator2 0 ∉ (Take errorPool).1.out)) :=
  ⟨by decide, by decide,
    Take_probe_error_drops_resource errorPool (testGenerator2 0) [] false errTestAlive
      (by decide) (by decide)⟩

/-! ## No index out of range (C20) -/

/-- C20: in every reachable pool state no index is out of range: resources.pop on
a non-empty slice succeeds and Take never panics; resources.remove succeeds at
the index manages reports; stack.pop on a non-empty stack succeeds; Return
neither panics nor runs out of loop iterations; Close never panics. -/
theorem no_index_out_of_range (p : pool) (hp : Reachable p) :
    (p.resources ≠ [] → ∃ x rest, resources.pop p.resources = some (x, rest)) ∧
    (Take p).2 ≠ TakeOutcome.panic ∧
    (∀ r : Resource, (pool.manages p r).2 = true →
      ∃ x rest, resources.remove p.out (pool.manages p r).1 = some (x, rest)) ∧
    (∀ s : stack, stack.isEmpty s = false → ∃ x rest, stack.pop s = some (x, rest)) ∧
    (∀ r : Resource, (Return p r).2 ≠ Outcome.panic ∧ (Return p r).2 ≠ Outcome.unfinished) ∧
    (Close p).2 ≠ Outcome.panic := by
  have hs := reachable_waitersSound p hp
  refine ⟨?_, Take_no_panic p, ?_, ?_, ?_, ?_⟩
  · intro hne
    rcases nil_or_snoc p.resources with h | ⟨pre, x, h⟩
    · exact absurd h hne
    · exact ⟨x, pre, by rw [h, resources.pop_concat]⟩
  · intro r hm
    have hr : r ∈ p.out := by
      unfold pool.manages at hm
      rw [resources.indexOf_eq] at hm
      simpa using hm
    exact ⟨r, p.out.erase r, resources.remove_indexOf p.out r hr⟩
  · intro s hne
    rcases nil_or_snoc s with h | ⟨pre, x, h⟩
    · subst h
      simp [stack.isEmpty, stack.size] at hne
    · exact ⟨x, pre, by rw [h, stack.pop_snoc]⟩
  · intro r
    by_cases hr : r ∈ p.out
    · rw [Return_managed p r hr]
      apply Return.loop_no_panic
      · intro i hi
        obtain ⟨rc, hrc, _⟩ := hs.2 i hi
        exact ⟨rc, hrc⟩
      · exact Nat.lt_succ_self _
    · rw [Return_unmanaged p r hr]
      simp
  · rcases Close_outcome p with h | h | h <;> rw [h] <;> simp

/-- C20 at the pool of capacity 1 with its resource taken and one Take parked. -/
theorem no_index_out_of_range_witness :
    Reachable waitingPool ∧
    (
      (waitingPool.resources ≠ [] → ∃ x rest, resources.pop waitingPool.resources = some (x, rest)) ∧
      (Take waitingPool).2 ≠ TakeOutcome.panic ∧
      (∀ r : Resource, (pool.manages waitingPool r).2 = true →
        ∃ x rest, resources.remove waitingPool.out (pool.manages waitingPool r).1 = some (x, rest)) ∧
      (∀ s : stack, stack.isEmpty s = false → ∃ x rest, stack.pop s = some (x, rest)) ∧
      (∀ r : Resource, (Return waitingPool r).2 ≠ Outcome.panic ∧ (Return waitingPool r).2 ≠ Outcome.unfinished) ∧
      (Close waitingPool).2 ≠ Outcome.panic) :=
  have hp : Reachable waitingPool :=
    ⟨maxSliceLen, testGenerator, { MaxResources := 1, Timeout := 0, Check := 0 }, singlePool,
      [Op.take, Op.take], rfl, rfl⟩
  ⟨hp, no_index_out_of_range waitingPool hp⟩

end Hottub
